import Mathlib

/-!
Shallow embedding, in Lean, of the core of the go-exfat reader:

* the cluster walker `ExfatReader.EnumerateClusters` and the file
  extractor `ExfatReader.WriteFromClusterChain` (structures.go),
* the per-FAT parser `ExfatReader.parseFat`, the boot-sector validation
  performed by `ExfatReader.readBootSectorHead`, and the active-FAT
  selection at the end of `ExfatReader.Parse` (structures.go),
* the directory-entry dispatch (`parseDirectoryEntry`) and the entry-set
  assembly of `ExfatNavigator.EnumerateDirectoryEntries` together with
  the filename construction of `MultipartFilename.Filename` and
  `UnicodeFromAscii` (navigator.go, navigator_entry_types.go),
* the sorted child registration `TreeNode.AddChild` and the traversal
  `Tree.visit` (tree.go).

Conventions.  Go machine integers are represented as `Nat`, with an
explicit reduction modulo 2^32 (`w32`) at every point where the source
performs uint32 arithmetic that can wrap.  Byte streams are `List Nat`
(each element a byte value).  The random-access byte source always
either yields exactly the requested number of bytes or fails
(`io.ReadFull`); reads of sectors are therefore modelled by a total
function `disk : Nat → Nat → List Nat` whose values are assumed, in the
theorems that need it, to have length `sectorSize`.  Cooperative
callbacks are modelled by explicit state-passing functions, and the
unbounded `for` loop of the cluster walker receives a fuel parameter;
running out of fuel is a distinguished outcome that no theorem counts as
a normal result.
-/

namespace Exfat

set_option maxRecDepth 10000

/-- Reduction modulo 2^32, the wrap-around of Go uint32 arithmetic. -/
def w32 (n : Nat) : Nat := n % 4294967296

/-- `MappedCluster.IsBad` (structures.go): the FAT entry `0xfffffff7`
marks a bad cluster. -/
def mappedClusterIsBad (mc : Nat) : Bool := mc == 4294967287

/-- `MappedCluster.IsLast` (structures.go): the FAT entry `0xffffffff`
marks the end of a cluster chain. -/
def mappedClusterIsLast (mc : Nat) : Bool := mc == 4294967295

/-- Outcome of a `ClusterVisitorFunc` callback: continue the walk, stop
the walk (`doContinue == false`), or return an error. -/
inductive CbRes
  | cont
  | stop
  | fail
  deriving DecidableEq

/-- Error outcomes of the cluster walk and of the extractor.  Each
constructor corresponds to one `log.Panicf` site in structures.go;
`outOfFuel` is the artefact of bounding the unbounded `for` loop. -/
inductive WalkErr
  | startTooLow
  | clusterTooLow
  | fatBounds
  | cbFailed
  | outOfFuel
  | sizeMismatch
  deriving DecidableEq

/-- The `for` loop of `ExfatReader.EnumerateClusters` (structures.go).
`cb` is the visitor callback with explicit state `σ`; the returned list
records the cluster numbers the callback was invoked on, in order (the
source appends them inside the callbacks themselves).  In FAT mode the
next cluster is `activeFat[current-2]`, guarded only by
`current >= len(activeFat)`; in non-FAT mode the cluster number is
incremented (a uint32 increment). -/
def enumLoop {σ : Type} (fat : List Nat) (useFat : Bool) (cb : σ → Nat → σ × CbRes) :
    Nat → Nat → σ → List Nat → σ × List Nat × Except WalkErr Unit
  | 0, _, s, vis => (s, vis, Except.error WalkErr.outOfFuel)
  | fuel+1, current, s, vis =>
    if current < 2 then (s, vis, Except.error WalkErr.clusterTooLow)
    else
      match cb s current with
      | (s1, CbRes.fail) => (s1, vis ++ [current], Except.error WalkErr.cbFailed)
      | (s1, CbRes.stop) => (s1, vis ++ [current], Except.ok ())
      | (s1, CbRes.cont) =>
        if useFat then
          if fat.length ≤ current then
            (s1, vis ++ [current], Except.error WalkErr.fatBounds)
          else
            let next := fat.getD (current - 2) 0
            if mappedClusterIsLast next then (s1, vis ++ [current], Except.ok ())
            else enumLoop fat useFat cb fuel next s1 (vis ++ [current])
        else enumLoop fat useFat cb fuel (w32 (current + 1)) s1 (vis ++ [current])

/-- `ExfatReader.EnumerateClusters` (structures.go): reject a starting
cluster below 2, then run the walk loop. -/
def enumerateClusters {σ : Type} (fat : List Nat) (useFat : Bool)
    (cb : σ → Nat → σ × CbRes) (startingClusterNumber fuel : Nat) (s : σ) :
    σ × List Nat × Except WalkErr Unit :=
  if startingClusterNumber < 2 then (s, [], Except.error WalkErr.startTooLow)
  else enumLoop fat useFat cb fuel startingClusterNumber s []

/-- Mutable state threaded through `ExfatReader.WriteFromClusterChain`
(structures.go): `written` and the chunk-by-chunk output of the sink
(`chunks`), the uint32 sector counter, and the shared `doContinue`
flag. -/
structure WriteSt where
  written : Nat
  sectorCount : Nat
  chunks : List (List Nat)
  cont : Bool
  deriving DecidableEq

/-- The per-sector callback of `WriteFromClusterChain` (structures.go):
`uint64((sectorCount+1)*sectorSize) > dataSize` — a uint32 product —
detects the last sector; then the data is truncated to
`tailFragmentSize` when that is positive, `doContinue` is cleared, the
(possibly truncated) data is written and the counters advance. -/
def writeSectorStep (sectorSize dataSize tailFragmentSize : Nat) (s : WriteSt)
    (data : List Nat) : WriteSt × Bool :=
  if dataSize < w32 (w32 (s.sectorCount + 1) * sectorSize) then
    let data2 := if 0 < tailFragmentSize then data.take tailFragmentSize else data
    (⟨s.written + data2.length, w32 (s.sectorCount + 1), s.chunks ++ [data2], false⟩, false)
  else
    (⟨s.written + data.length, w32 (s.sectorCount + 1), s.chunks ++ [data], s.cont⟩, s.cont)

/-- `ExfatCluster.EnumerateSectors` (structures.go) specialised to the
extractor: iterate the sectors of one cluster (indices `i` up to
`sectorsPerCluster`), reading each through `dataOf` (the index check of
`GetSectorByIndex` always passes inside this loop) and stopping as soon
as the callback returns `false`. -/
def runSectors (step : WriteSt → List Nat → WriteSt × Bool) (dataOf : Nat → List Nat) :
    Nat → Nat → WriteSt → WriteSt
  | _, 0, s => s
  | i, n+1, s =>
    match step s (dataOf i) with
    | (s2, true) => runSectors step dataOf (i+1) n s2
    | (s2, false) => s2

/-- The per-cluster callback of `WriteFromClusterChain` (structures.go):
run the sector loop of the cluster and return the shared `doContinue`
flag. -/
def writeClusterCb (sectorSize spc dataSize tailFragmentSize : Nat)
    (disk : Nat → Nat → List Nat) (s : WriteSt) (c : Nat) : WriteSt × CbRes :=
  let s2 := runSectors (writeSectorStep sectorSize dataSize tailFragmentSize) (disk c) 0 spc s
  (s2, if s2.cont then CbRes.cont else CbRes.stop)

/-- `ExfatReader.WriteFromClusterChain` (structures.go):
`tailFragmentSize = dataSize % sectorSize`, walk the cluster chain
writing sector data through the callbacks above, and finally fail with
a size mismatch unless `written == dataSize`.  `spc` is
`SectorsPerCluster()`. -/
def writeFromClusterChain (sectorSize spc : Nat) (fat : List Nat)
    (disk : Nat → Nat → List Nat) (firstClusterNumber dataSize : Nat)
    (useFat : Bool) (fuel : Nat) : WriteSt × List Nat × Except WalkErr Unit :=
  let tailFragmentSize := dataSize % sectorSize
  match enumerateClusters fat useFat
      (writeClusterCb sectorSize spc dataSize tailFragmentSize disk)
      firstClusterNumber fuel ⟨0, 0, [], true⟩ with
  | (s, vis, Except.ok _) =>
    if s.written ≠ dataSize then (s, vis, Except.error WalkErr.sizeMismatch)
    else (s, vis, Except.ok ())
  | e => e

/-- Read `n` bytes of a byte stream as a little-endian integer,
returning the value and the remaining stream; `none` models the error
`binary.Read`/`io.ReadFull` raise when the source is exhausted. -/
def readLE : Nat → List Nat → Option (Nat × List Nat)
  | 0, bs => some (0, bs)
  | _+1, [] => none
  | n+1, b :: bs =>
    match readLE n bs with
    | some (v, rest) => some (b + 256 * v, rest)
    | none => none

/-- The entry-reading loop of `ExfatReader.parseFat` (structures.go):
read `n` consecutive uint32 FAT entries. -/
def readFatEntries : Nat → List Nat → Option (List Nat × List Nat)
  | 0, bs => some ([], bs)
  | n+1, bs =>
    match readLE 4 bs with
    | some (v, rest) =>
      match readFatEntries n rest with
      | some (vs, rest2) => some (v :: vs, rest2)
      | none => none
    | none => none

/-- Failure modes of `ExfatReader.parseFat` (structures.go). -/
inductive FatErr
  | truncated
  | badMediaType
  | badSecondEntry
  deriving DecidableEq

/-- `ExfatReader.parseFat` (structures.go), as a consumer of a byte
stream.  Entry 0 must have low byte `0xf8`, entry 1 must be
`0xffffffff`; then `clusterCount - 1` entries are read
(`entryCount := er.bootRegion.bsh.ClusterCount - 1`, a uint32
subtraction) and the excess
`FatLength*sectorSize - (ClusterCount+1)*4` bytes (uint32 arithmetic,
wrapping) are read and discarded.  The result is the FAT and the
remaining stream.  (The sector-alignment assertion at the top of the
source consumes no bytes and is elided.) -/
def parseFat (sectorSize fatLength clusterCount : Nat) (stream : List Nat) :
    Except FatErr (List Nat × List Nat) :=
  match readLE 4 stream with
  | none => Except.error FatErr.truncated
  | some (mediaTypeRaw, s1) =>
    if mediaTypeRaw % 256 ≠ 248 then Except.error FatErr.badMediaType
    else
      match readLE 4 s1 with
      | none => Except.error FatErr.truncated
      | some (value, s2) =>
        if value ≠ 4294967295 then Except.error FatErr.badSecondEntry
        else
          let totalFatSize := w32 (fatLength * sectorSize)
          let actualFatSize := w32 (w32 (clusterCount + 1) * 4)
          let excessSize := w32 (totalFatSize + (4294967296 - actualFatSize))
          let entryCount := w32 (clusterCount + 4294967295)
          match readFatEntries entryCount s2 with
          | none => Except.error FatErr.truncated
          | some (fat, s3) =>
            if s3.length < excessSize then Except.error FatErr.truncated
            else Except.ok (fat, s3.drop excessSize)

/-- The decoded boot-sector header fields that the validation in
`ExfatReader.readBootSectorHead` (structures.go) and the claims below
look at.  `fileSystemRevision` is the two-byte `[2]uint8` field: first
component the low-order byte (minor revision), second component the
high-order byte (major revision). -/
structure BootSectorHeader where
  jumpBoot : List Nat
  fileSystemName : List Nat
  mustBeZero : List Nat
  fileSystemRevision : Nat × Nat
  volumeFlags : Nat
  bytesPerSectorShift : Nat
  sectorsPerClusterShift : Nat
  numberOfFats : Nat
  bootSignature : Nat
  clusterCount : Nat
  fatOffset : Nat
  fatLength : Nat
  clusterHeapOffset : Nat
  firstClusterOfRootDirectory : Nat
  deriving DecidableEq

/-- Failure modes of `ExfatReader.readBootSectorHead` (structures.go). -/
inductive BootErr
  | badJumpBoot
  | badFsName
  | badBootSignature
  | mustBeZeroNotZero
  deriving DecidableEq

/-- The validation performed by `ExfatReader.readBootSectorHead`
(structures.go) on the decoded header: jump-boot must be `EB 76 90`,
the filesystem name must be `"EXFAT   "`, the boot signature must be
`0xAA55`, and the 53-byte must-be-zero region must be all zeros — in
that order, and nothing else is checked. -/
def readBootSectorHeadChecks (bsh : BootSectorHeader) : Except BootErr Unit :=
  if bsh.jumpBoot ≠ [235, 118, 144] then Except.error BootErr.badJumpBoot
  else if bsh.fileSystemName ≠ [69, 88, 70, 65, 84, 32, 32, 32] then
    Except.error BootErr.badFsName
  else if bsh.bootSignature ≠ 43605 then Except.error BootErr.badBootSignature
  else if bsh.mustBeZero.any (fun c => c ≠ 0) then Except.error BootErr.mustBeZeroNotZero
  else Except.ok ()

/-- `VolumeFlags.UseFirstFat` (structures.go): bit 0 clear. -/
def volumeFlagsUseFirstFat (vf : Nat) : Bool := vf % 2 == 0

/-- `VolumeFlags.UseSecondFat` (structures.go): bit 0 set. -/
def volumeFlagsUseSecondFat (vf : Nat) : Bool := 0 < vf % 2

/-- Failure modes of the active-FAT selection in `ExfatReader.Parse`
(structures.go).  `fatIndexOutOfRange` models the Go runtime panic
(recovered into an error) of indexing `fats` out of bounds. -/
inductive SelectFatErr
  | secondFatUnavailable
  | noFatSelected
  | fatIndexOutOfRange
  deriving DecidableEq

/-- The active-FAT selection at the end of `ExfatReader.Parse`
(structures.go): `UseFirstFat` selects `fats[0]`; otherwise
`UseSecondFat` requires `len(fats) != 1` (panicking with
"boot-sector-header says to use the second FAT but only one FAT is
available" otherwise) and selects `fats[1]`.  `fats` is the list
produced by `parseFats`, whose length is the `NumberOfFats` field. -/
def selectActiveFat (vf : Nat) (fats : List (List Nat)) :
    Except SelectFatErr (List Nat) :=
  if volumeFlagsUseFirstFat vf then
    match fats with
    | [] => Except.error SelectFatErr.fatIndexOutOfRange
    | f :: _ => Except.ok f
  else if volumeFlagsUseSecondFat vf then
    if fats.length == 1 then Except.error SelectFatErr.secondFatUnavailable
    else
      match fats[1]? with
      | some f => Except.ok f
      | none => Except.error SelectFatErr.fatIndexOutOfRange
  else Except.error SelectFatErr.noFatSelected

/-- `EntryType.IsEndOfDirectory` (navigator_entry_types.go). -/
def entryTypeIsEndOfDirectory (et : Nat) : Bool := et == 0

/-- `EntryType.IsUnusedEntryMarker` (navigator_entry_types.go): type
byte in `0x01 ..= 0x7f`. -/
def entryTypeIsUnusedEntryMarker (et : Nat) : Bool := 1 ≤ et && et ≤ 127

/-- `EntryType.TypeCode` (navigator_entry_types.go): low five bits. -/
def entryTypeTypeCode (et : Nat) : Nat := et % 32

/-- `EntryType.IsCritical` (navigator_entry_types.go): bit 5 clear. -/
def entryTypeIsCritical (et : Nat) : Bool := et / 32 % 2 == 0

/-- `EntryType.IsPrimary` (navigator_entry_types.go): bit 6 clear. -/
def entryTypeIsPrimary (et : Nat) : Bool := et / 64 % 2 == 0

/-- Byte `i` of a 32-byte directory-entry slot (slots always carry
exactly 32 bytes, sliced out of a sector). -/
def slotByte (slot : List Nat) (i : Nat) : Nat := slot.getD i 0

/-- Little-endian 16-bit field at offset `i` of a slot. -/
def slotU16 (slot : List Nat) (i : Nat) : Nat :=
  slotByte slot i + 256 * slotByte slot (i + 1)

/-- Little-endian 32-bit field at offset `i` of a slot. -/
def slotU32 (slot : List Nat) (i : Nat) : Nat :=
  slotU16 slot i + 65536 * slotU16 slot (i + 2)

/-- Little-endian 64-bit field at offset `i` of a slot. -/
def slotU64 (slot : List Nat) (i : Nat) : Nat :=
  slotU32 slot i + 4294967296 * slotU32 slot (i + 4)

/-- The tagged variant the reflective registry `directoryEntryParsers`
(navigator_entry_types.go) dispatches into.  Each constructor carries
the decoded fields the claims need (byte offsets follow the struct
layouts in navigator_entry_types.go); `raw` keeps the undecoded slot
for the kinds whose fields the claims do not inspect. -/
inductive DirectoryEntry
  | allocationBitmap (raw : List Nat)
  | upcaseTable (raw : List Nat)
  | volumeLabel (characterCount : Nat) (label : List Nat)
  | file (secondaryCount : Nat) (fileAttributes : Nat) (raw : List Nat)
  | volumeGuid (secondaryCount : Nat) (raw : List Nat)
  | texFat (raw : List Nat)
  | streamExtension (generalSecondaryFlags nameLength validDataLength firstCluster dataLength : Nat)
  | fileName (generalSecondaryFlags : Nat) (fileNameBytes : List Nat)
  | vendorExtension (raw : List Nat)
  | vendorAllocation (raw : List Nat)
  deriving DecidableEq

/-- Whether the parsed entry's Go struct implements the
`PrimaryDirectoryEntry` interface, i.e. has a `SecondaryCount()` method
(navigator_entry_types.go): only `ExfatFileDirectoryEntry` and
`ExfatVolumeGuidDirectoryEntry` do. -/
def hasSecondaryCount : DirectoryEntry → Bool
  | DirectoryEntry.file _ _ _ => true
  | DirectoryEntry.volumeGuid _ _ => true
  | _ => false

/-- `SecondaryCount()` of a primary entry that has one (0 otherwise). -/
def secondaryCountOf : DirectoryEntry → Nat
  | DirectoryEntry.file n _ _ => n
  | DirectoryEntry.volumeGuid n _ => n
  | _ => 0

/-- Whether the entry is an `ExfatFileNameDirectoryEntry`, and its
30-byte `FileName` field. -/
def fileNameBytesOf : DirectoryEntry → Option (List Nat)
  | DirectoryEntry.fileName _ bs => some bs
  | _ => none

/-- The error of `parseDirectoryEntry` (navigator_entry_types.go) when
the `(typeCode, isCritical, isPrimary)` triple is not in the registry:
"no struct-type recorded for entry-type". -/
inductive NavErr
  | unknownEntryType
  deriving DecidableEq

/-- `parseDirectoryEntry` (navigator_entry_types.go): dispatch a 32-byte
slot on `(TypeCode, IsCritical, IsPrimary)` of its first byte through
the `directoryEntryParsers` registry and decode the matching struct
(little-endian layout). -/
def parseDirectoryEntry (slot : List Nat) : Except NavErr DirectoryEntry :=
  let et := slotByte slot 0
  match entryTypeTypeCode et, entryTypeIsCritical et, entryTypeIsPrimary et with
  | 1, true, true => Except.ok (DirectoryEntry.allocationBitmap slot)
  | 2, true, true => Except.ok (DirectoryEntry.upcaseTable slot)
  | 3, true, true =>
    Except.ok (DirectoryEntry.volumeLabel (slotByte slot 1) ((slot.drop 2).take 30))
  | 5, true, true =>
    Except.ok (DirectoryEntry.file (slotByte slot 1) (slotU16 slot 4) slot)
  | 0, false, true => Except.ok (DirectoryEntry.volumeGuid (slotByte slot 1) slot)
  | 1, false, true => Except.ok (DirectoryEntry.texFat slot)
  | 0, true, false =>
    Except.ok (DirectoryEntry.streamExtension (slotByte slot 1) (slotByte slot 3)
      (slotU64 slot 8) (slotU32 slot 20) (slotU64 slot 24))
  | 1, true, false =>
    Except.ok (DirectoryEntry.fileName (slotByte slot 1) ((slot.drop 2).take 30))
  | 0, false, false => Except.ok (DirectoryEntry.vendorExtension slot)
  | 1, false, false => Except.ok (DirectoryEntry.vendorAllocation slot)
  | _, _, _ => Except.error NavErr.unknownEntryType

/-- The loop state of `ExfatNavigator.EnumerateDirectoryEntries`
(navigator.go): the last primary entry seen (`nil` before the first
one), the secondary-entry accumulator, and the sequence of entry sets
delivered to the callback so far. -/
structure NavSt where
  primary : Option DirectoryEntry
  secondaries : List DirectoryEntry
  delivered : List (DirectoryEntry × List DirectoryEntry)
  deriving DecidableEq

/-- Initial state of the directory-entry enumeration. -/
def navInit : NavSt := ⟨none, [], []⟩

/-- The slot loop of `ExfatNavigator.EnumerateDirectoryEntries`
(navigator.go), over the flat sequence of 32-byte slots that the
cluster/sector walk presents (each sector contributes
`sectorSize / 32` consecutive slots; the walk is in non-FAT, adjacent
cluster order).  A zero type byte is the end-of-directory marker and
stops all traversal.  Every other slot is handed to
`parseDirectoryEntry`; a primary entry replaces the remembered primary
and clears the accumulator, a secondary entry is appended.  Then the
callback fires when the remembered primary has a `SecondaryCount()` and
the accumulator length equals it, or, for a primary without one, on the
primary's own slot (with the just-cleared, empty accumulator).
`navUpdate` is the state update for one parsed slot; `enumSlots` is the
loop. -/
def navUpdate (isPrim : Bool) (de : DirectoryEntry) (st : NavSt) : NavSt :=
  let st1 :=
    if isPrim then { st with primary := some de, secondaries := [] }
    else { st with secondaries := st.secondaries ++ [de] }
  match st1.primary with
  | some p =>
    if hasSecondaryCount p then
      if st1.secondaries.length == secondaryCountOf p then
        { st1 with delivered := st1.delivered ++ [(p, st1.secondaries)] }
      else st1
    else if isPrim then
      { st1 with delivered := st1.delivered ++ [(p, st1.secondaries)] }
    else st1
  | none => st1

def enumSlots : List (List Nat) → NavSt → NavSt × Except NavErr Unit
  | [], st => (st, Except.ok ())
  | slot :: rest, st =>
    let et := slotByte slot 0
    if entryTypeIsEndOfDirectory et then (st, Except.ok ())
    else
      match parseDirectoryEntry slot with
      | Except.error e => (st, Except.error e)
      | Except.ok de => enumSlots rest (navUpdate (entryTypeIsPrimary et) de st)

/-- `utf8.DecodeRune` applied to a one-byte slice, as done by
`UnicodeFromAscii`: an ASCII byte decodes to itself, any byte ≥ 0x80 is
an invalid/incomplete UTF-8 sequence and decodes to U+FFFD. -/
def decodeRune1 (b : Nat) : Nat := if b < 128 then b else 65533

/-- `UnicodeFromAscii` (unicode helper file): for each of
`unicodeCharCount` UTF-16LE code units it looks only at the unit's low
byte (`raw[i*2 : i*2+1]`), decodes it as a one-byte UTF-8 sequence,
skips zero results (but writes non-zero runes at their original index
`i` of the zero-initialised buffer), and finally truncates the buffer
to the number of non-zero runes.  Because skipped positions hold rune
0, the buffer equals the full rune sequence and the result is its
prefix of length "number of non-zero runes". -/
def unicodeFromAscii (raw : List Nat) (unicodeCharCount : Nat) : List Nat :=
  let rs := (List.range unicodeCharCount).map (fun i => decodeRune1 (slotByte raw (2 * i)))
  rs.take (rs.countP (fun r => r ≠ 0))

/-- `MultipartFilename.Filename` (navigator_entry_types.go): over the
secondary entries of a File entry set, decode each
`ExfatFileNameDirectoryEntry`'s 30-byte field as 15 code units with
`UnicodeFromAscii` and concatenate the parts.  The Stream Extension's
`NameLength` is not consulted (the source comments as much). -/
def multipartFilename (entries : List DirectoryEntry) : List Nat :=
  (entries.filterMap
    (fun de =>
      match fileNameBytesOf de with
      | some bs => some (unicodeFromAscii bs 15)
      | none => none)).flatten

/-- The `"File"` rows of `ExfatNavigator.IndexDirectoryEntries`
(navigator.go): for each delivered entry set whose primary is an
`ExfatFileDirectoryEntry`, the index row keeps the primary, its
secondary entries and the precomputed `complete_filename` extra,
`MultipartFilename(secondaryEntries).Filename()`. -/
def indexFileSets (slots : List (List Nat)) :
    List (DirectoryEntry × List DirectoryEntry × List Nat) :=
  ((enumSlots slots navInit).1.delivered).filterMap
    (fun pr =>
      match pr.1 with
      | DirectoryEntry.file _ _ _ => some (pr.1, pr.2, multipartFilename pr.2)
      | _ => none)

/-- Go string comparison `a < b` (byte-wise lexicographic; a strict
prefix is smaller), used by `sort.StringSlice`. -/
def goStringLt : List Nat → List Nat → Bool
  | [], [] => false
  | [], _ :: _ => true
  | _ :: _, [] => false
  | a :: as, b :: bs => if a < b then true else if b < a then false else goStringLt as bs

/-- Go's `sort.Search(n, f)` binary search over `[i, j)`: returns the
boundary index the loop `i, j := 0, n; for i < j { h := (i+j)/2; if
!f(h) { i = h+1 } else { j = h } }` converges to. -/
def sortSearch (f : Nat → Bool) (i j : Nat) : Nat :=
  if h : i < j then
    if f ((i + j) / 2) then sortSearch f i ((i + j) / 2)
    else sortSearch f ((i + j) / 2 + 1) j
  else i
termination_by j - i
decreasing_by
  all_goals simp_wf
  all_goals
    have h1 : (i + j) / 2 < j := Nat.div_lt_of_lt_mul (by omega)
  all_goals
    have h2 : i ≤ (i + j) / 2 := (Nat.le_div_iff_mul_le (by omega)).mpr (by omega)
  all_goals omega

/-- `sort.StringSlice.Search(x)` = `sort.SearchStrings`: smallest index
whose element is `>= x` on a sorted slice (`f(h) = !(l[h] < x)`). -/
def searchNames (l : List (List Nat)) (x : List Nat) : Nat :=
  sortSearch (fun h => ! goStringLt (l.getD h []) x) 0 l.length

/-- The sorted-insertion step of `TreeNode.AddChild` (tree.go) on one of
the two child-name lists: find the insertion point with `Search`;
append at the end when past the end, insert between the halves when the
element there differs from `name`, and leave the list unchanged when
`name` is already present. -/
def insertChildName (list : List (List Nat)) (name : List Nat) : List (List Nat) :=
  let insertOrEqualAt := searchNames list name
  if list.length ≤ insertOrEqualAt then list ++ [name]
  else if list.getD insertOrEqualAt [] ≠ name then
    list.take insertOrEqualAt ++ [name] ++ list.drop insertOrEqualAt
  else list

/-- The two sorted child-name lists of a `TreeNode` (tree.go). -/
structure Children where
  childrenFolders : List (List Nat)
  childrenFiles : List (List Nat)
  deriving DecidableEq

/-- `TreeNode.AddChild` (tree.go), restricted to its effect on the two
sorted name lists: directories go to `childrenFolders`, files to
`childrenFiles` (the child node itself goes into `childrenMap`). -/
def addChild (c : Children) (name : List Nat) (isDirectory : Bool) : Children :=
  if isDirectory then { c with childrenFolders := insertChildName c.childrenFolders name }
  else { c with childrenFiles := insertChildName c.childrenFiles name }

/-- A sequence of `AddChild` operations applied to an initially empty
node (`NewTreeNode` starts both lists empty). -/
def addChildren (ops : List (List Nat × Bool)) : Children :=
  ops.foldl (fun c op => addChild c op.1 op.2) ⟨[], []⟩

/-- In-memory `TreeNode` (tree.go): name, directory flag, the two
sorted child-name lists, the name → child mapping (modelled as an
association list; Go map keys are unique), and the `loaded` flag. -/
inductive TNode
  | node (name : List Nat) (isDirectory : Bool)
      (childrenFolders childrenFiles : List (List Nat))
      (childrenMap : List (List Nat × TNode)) (loaded : Bool)

/-- `childrenMap[name]` (Go map indexing: `nil` when absent). -/
def lookupChild : List (List Nat × TNode) → List Nat → Option TNode
  | [], _ => none
  | (k, t) :: rest, nm => if k = nm then some t else lookupChild rest nm

/-- Name of a node. -/
def nodeName : TNode → List Nat
  | TNode.node nm _ _ _ _ _ => nm

/-- Directory flag of a node. -/
def nodeIsDirectory : TNode → Bool
  | TNode.node _ d _ _ _ _ => d

/-- `loaded` flag of a node. -/
def nodeLoaded : TNode → Bool
  | TNode.node _ _ _ _ _ lo => lo

/-- Abnormal outcomes of the modelled traversal: dereferencing a `nil`
child in the folder loop, meeting an unloaded directory (the source
would lazily load it through the volume reader, which this model of the
in-memory traversal leaves out of scope), or running out of fuel. -/
inductive VisitErr
  | nilNode
  | notLoaded
  | outOfFuel
  deriving DecidableEq

/-- The folder loop of `Tree.visit` (tree.go): for each name of
`childrenFolders` in order, fetch the child from the map (a `nil`
dereference if absent), recurse when it is a directory (after the
laziness check), and otherwise put it aside in the dead `files` local
that the source never reads. -/
def visitFold (recv : TNode → List (List Nat) → Except VisitErr (List (List (List Nat) × Option TNode)))
    (m : List (List Nat × TNode)) (path : List (List Nat)) :
    List (List Nat) → Except VisitErr (List (List (List Nat) × Option TNode))
  | [] => Except.ok []
  | f :: rest =>
    match lookupChild m f with
    | none => Except.error VisitErr.nilNode
    | some child =>
      if nodeIsDirectory child then
        if nodeLoaded child then
          match recv child (path ++ [nodeName child]) with
          | Except.ok out1 =>
            match visitFold recv m path rest with
            | Except.ok out2 => Except.ok (out1 ++ out2)
            | Except.error e => Except.error e
          | Except.error e => Except.error e
        else Except.error VisitErr.notLoaded
      else visitFold recv m path rest

/-- `Tree.visit` (tree.go): call the callback on the node itself, then
run the folder loop (recursing depth-first), then call the callback on
each of `childrenFiles` in order with the mapped child (which Go would
pass as `nil` when absent).  The emission list records the callback
invocations `(pathParts, node)` in order. -/
def visitGo : Nat → TNode → List (List Nat) → Except VisitErr (List (List (List Nat) × Option TNode))
  | 0, _, _ => Except.error VisitErr.outOfFuel
  | fuel+1, n, path =>
    match n with
    | TNode.node nm d fo fi m lo =>
      match visitFold (visitGo fuel) m path fo with
      | Except.ok sub =>
        Except.ok ((path, some (TNode.node nm d fo fi m lo)) :: sub
          ++ fi.map (fun f => (path ++ [f], lookupChild m f)))
      | Except.error e => Except.error e

/-- The spec-shaped traversal ("emits the parent node, then each child
folder recursively in list order, then all child files in list order"),
to be compared with `visitGo`: every listed folder child is entered
unconditionally. -/
def specVisitFold (recv : TNode → List (List Nat) → Except VisitErr (List (List (List Nat) × Option TNode)))
    (m : List (List Nat × TNode)) (path : List (List Nat)) :
    List (List Nat) → Except VisitErr (List (List (List Nat) × Option TNode))
  | [] => Except.ok []
  | f :: rest =>
    match lookupChild m f with
    | none => Except.error VisitErr.nilNode
    | some child =>
      match recv child (path ++ [nodeName child]) with
      | Except.ok out1 =>
        match specVisitFold recv m path rest with
        | Except.ok out2 => Except.ok (out1 ++ out2)
        | Except.error e => Except.error e
      | Except.error e => Except.error e

/-- Spec-shaped counterpart of `visitGo`. -/
def specVisit : Nat → TNode → List (List Nat) → Except VisitErr (List (List (List Nat) × Option TNode))
  | 0, _, _ => Except.error VisitErr.outOfFuel
  | fuel+1, n, path =>
    match n with
    | TNode.node nm d fo fi m lo =>
      match specVisitFold (specVisit fuel) m path fo with
      | Except.ok sub =>
        Except.ok ((path, some (TNode.node nm d fo fi m lo)) :: sub
          ++ fi.map (fun f => (path ++ [f], lookupChild m f)))
      | Except.error e => Except.error e

/-- Well-formedness of a loaded tree: the node is loaded and every name
in its folder list maps to a loaded directory child that is itself
well-formed (the shape `Tree.loadDirectory` produces). -/
inductive TreeWF : TNode → Prop
  | mk (nm : List Nat) (d : Bool) (fo fi : List (List Nat))
      (m : List (List Nat × TNode))
      (hm : ∀ p ∈ m, TreeWF p.2)
      (hfo : ∀ f ∈ fo, ∃ t, lookupChild m f = some t ∧ nodeIsDirectory t = true ∧
        nodeLoaded t = true) :
      TreeWF (TNode.node nm d fo fi m true)

/-- Little-endian value of a byte list (first byte lowest). -/
def valLE : List Nat → Nat
  | [] => 0
  | b :: bs => b + 256 * valLE bs

/-- Number of non-zero decoded code units of one File Name fragment
(its 15 units, low-byte decoded); the length `UnicodeFromAscii`
truncates the fragment to. -/
def fragmentNonzeroUnits (bs : List Nat) : Nat :=
  ((List.range 15).map (fun i => decodeRune1 (slotByte bs (2 * i)))).countP
    (fun r => r ≠ 0)

/-- Total number of non-zero decoded code units over the File Name
fragments of a secondary-entry list. -/
def totalNonzeroUnits (entries : List DirectoryEntry) : Nat :=
  ((entries.filterMap fileNameBytesOf).map fragmentNonzeroUnits).sum

/-- A boot-sector header that satisfies every check
`readBootSectorHead` performs, but whose major revision (high-order
byte of `FileSystemRevision`) is 2 rather than 1. -/
def bshRev2 : BootSectorHeader :=
  ⟨[235, 118, 144], [69, 88, 70, 65, 84, 32, 32, 32], List.replicate 53 0,
    (0, 2), 0, 9, 0, 1, 43605, 239, 24, 2, 4, 5⟩

/-- A directory slot stream beginning with a deleted/unused slot: type
byte `0x05` (an `ExfatFileDirectoryEntry` whose in-use bit has been
cleared), secondary count 0, followed by the end-of-directory
marker. -/
def c3slots : List (List Nat) :=
  [5 :: List.replicate 31 0, List.replicate 32 0]

/-- A directory slot stream with one File entry set: a File primary
declaring one secondary, followed by one File Name entry. -/
def c4slots : List (List Nat) :=
  [[133, 1] ++ List.replicate 30 0, [193, 0] ++ List.replicate 30 0]

/-- A directory slot stream with one File entry set whose Stream
Extension declares `NameLength` 2 while its single File Name fragment
carries the three non-zero code units `a`, `b`, `c`. -/
def c5slots : List (List Nat) :=
  [[133, 2] ++ List.replicate 30 0,
   [192, 0, 0, 2] ++ List.replicate 28 0,
   [193, 0, 97, 0, 98, 0, 99, 0] ++ List.replicate 24 0,
   List.replicate 32 0]

/-- The extractor counterexample's data size: `2^32 - 2048` bytes.  Its
tail fragment at sector size 4096 is 2048. -/
def dataSizeCE : Nat := 4294965248

/-- A FAT for the extractor counterexample (cluster count 132, so 131
parsed entries): the chain `2 → 3 → … → 129`, cluster 129 being the
last; 128 clusters of 8192 sectors of 4096 bytes = `2^32` bytes. -/
def fatCE : List Nat :=
  (List.range 131).map (fun i => if i == 127 then 4294967295 else i + 3)

/-- An all-zeros disk for the extractor counterexample. -/
def diskCE : Nat → Nat → List Nat := fun _ _ => List.replicate 4096 0

/-- The extractor counterexample's per-cluster callback. -/
def cbCE : WriteSt → Nat → WriteSt × CbRes :=
  writeClusterCb 4096 8192 dataSizeCE 2048 diskCE

/-- The extractor state after `j` whole clusters of the counterexample
run: `j * 2^25` bytes written in `j * 8192` full sectors. -/
def stateAfterCE (j : Nat) : WriteSt :=
  ⟨j * 33554432, j * 8192, List.replicate (j * 8192) (List.replicate 4096 0), true⟩

/-- The extractor counterexample run: sector size 4096, 8192 sectors
per cluster, FAT mode from cluster 2, `dataSize = 2^32 - 2048`. -/
def runCE : WriteSt × List Nat × Except WalkErr Unit :=
  writeFromClusterChain 4096 8192 fatCE diskCE 2 dataSizeCE true 200

/-! ### Theorems -/

/-- C6: the boot-sector validation accepts a header whose major
revision number (`FileSystemRevision`'s high-order byte) is 2: the spec
requires any major revision other than 1 to be rejected, but
`readBootSectorHead` checks the jump-boot bytes, the filesystem name,
the boot signature and the must-be-zero region only — it never looks at
the revision.  Evaluating the modelled checks on `bshRev2` (valid in
every checked field, major revision 2) yields success. -/
theorem c6_readBootSectorHead_accepts_major_revision_2 :
    readBootSectorHeadChecks bshRev2 = Except.ok () ∧
    bshRev2.fileSystemRevision.2 = 2 ∧ bshRev2.fileSystemRevision.2 ≠ 1 := by
  refine ⟨rfl, rfl, by decide⟩

/-- C7 (counterexample): with `volume_flags.active_fat = 1` and three
parsed FATs (`NumberOfFats` = 3, which nothing validates), `Parse`'s
selection still picks the second FAT — so "the second FAT is selected
only when `number_of_FATs` = 2" is false on the code. -/
theorem c7_counterexample :
    selectActiveFat 1 [[10], [20], [30]] = Except.ok [20] ∧
    ([[10], [20], [30]] : List (List Nat)).length = 3 ∧ (3 : Nat) ≠ 2 := by
  refine ⟨rfl, by decide, by decide⟩

/-- C7 (amended): if `active_fat` = 0 the first parsed FAT is selected
(a Go index panic, surfaced as an error, when no FAT was parsed); if
`active_fat` = 1 the second parsed FAT is selected whenever at least
two FATs are present — not only when `number_of_FATs` = 2 — and Parse
fails when `active_fat` = 1 while exactly one FAT is present. -/
theorem c7_activeFat_selection (vf : Nat) (fats : List (List Nat)) :
    (vf % 2 = 0 → ∀ f rest, fats = f :: rest → selectActiveFat vf fats = Except.ok f) ∧
    (vf % 2 ≠ 0 → fats.length = 1 →
      selectActiveFat vf fats = Except.error SelectFatErr.secondFatUnavailable) ∧
    (vf % 2 ≠ 0 → 2 ≤ fats.length → selectActiveFat vf fats = Except.ok (fats.getD 1 [])) := by
  refine ⟨?_, ?_, ?_⟩
  · intro h0 f rest hf
    subst hf
    simp [selectActiveFat, volumeFlagsUseFirstFat, h0]
  · intro h1 hlen
    have hne : ¬ (vf % 2 == 0) = true := by simpa using h1
    simp [selectActiveFat, volumeFlagsUseFirstFat, volumeFlagsUseSecondFat, hne, hlen]
    omega
  · intro h1 hlen
    have hne : ¬ (vf % 2 == 0) = true := by simpa using h1
    match fats, hlen with
    | f0 :: f1 :: rest, _ =>
      simp [selectActiveFat, volumeFlagsUseFirstFat, volumeFlagsUseSecondFat, hne]
      omega

/-- C7 (witness): the amended characterization evaluated at concrete
inputs: one FAT with `active_fat` = 0, one FAT with `active_fat` = 1,
and two FATs with `active_fat` = 1. -/
theorem c7_activeFat_selection_witness :
    selectActiveFat 0 [[5]] = Except.ok [5] ∧
    selectActiveFat 1 [[5]] = Except.error SelectFatErr.secondFatUnavailable ∧
    selectActiveFat 1 [[5], [6]] = Except.ok [6] :=
  ⟨(c7_activeFat_selection 0 [[5]]).1 (by decide) [5] [] rfl,
   (c7_activeFat_selection 1 [[5]]).2.1 (by decide) (by decide),
   by
    have h := (c7_activeFat_selection 1 [[5], [6]]).2.2 (by decide) (by decide)
    simpa using h⟩

/-- C3: directory slots whose type byte lies in `0x01..0x7F`
(unused/deleted entries) are NOT skipped by
`EnumerateDirectoryEntries`: the slot loop checks only for the
end-of-directory marker and otherwise hands the slot to
`parseDirectoryEntry`, which dispatches on the type-code/critical/
primary bits alone (the in-use bit is ignored).  A deleted File slot
(type byte `0x05`) therefore parses as a live File entry and is
delivered as an entry set, contradicting the spec's "unused/deleted
slot (skip) … contributes nothing to any delivered entry set". -/
theorem c3_unused_slot_parsed_and_delivered :
    entryTypeIsUnusedEntryMarker 5 = true ∧
    parseDirectoryEntry (5 :: List.replicate 31 0) =
      Except.ok (DirectoryEntry.file 0 0 (5 :: List.replicate 31 0)) ∧
    (enumSlots c3slots navInit).1.delivered =
      [(DirectoryEntry.file 0 0 (5 :: List.replicate 31 0), [])] := by
  refine ⟨by decide, rfl, by decide⟩

/-- C5 (counterexample): on `c5slots` the indexed File entry set's
Stream Extension declares `name_length` 2, yet the attached complete
filename is `"abc"` (code units 97, 98, 99) of length 3:
`MultipartFilename.Filename` always decodes 15 units per fragment and
never consults `name_length`, so the decoded length does not equal
`name_length`. -/
theorem c5_counterexample :
    indexFileSets c5slots =
      [(DirectoryEntry.file 2 0 ([133, 2] ++ List.replicate 30 0),
        [DirectoryEntry.streamExtension 0 2 0 0 0,
         DirectoryEntry.fileName 0 ([97, 0, 98, 0, 99, 0] ++ List.replicate 24 0)],
        [97, 98, 99])] ∧
    ([97, 98, 99] : List Nat).length = 3 ∧ (3 : Nat) ≠ 2 := by
  refine ⟨by decide, by decide, by decide⟩

/-- C2 (counterexample): with a FAT of length 4 (cluster count 5) whose
entry for cluster 2 is the BAD marker `0xFFFFFFF7`, and a callback that
always continues, the walk visits cluster `0xFFFFFFF7` — the BAD value
is not detected but used as the next cluster index, violating
`2 ≤ c < cluster_count + 2` for produced clusters — and only afterwards
fails on the FAT-bounds check.  Moreover, when the callback stops at
that bogus cluster, the walk ends without any failure at all, so a BAD
entry does not by itself cause the walk to fail. -/
theorem c2_counterexample :
    (enumerateClusters [4294967287, 4294967295, 4294967295, 4294967295] true
        (fun (_ : Unit) _ => ((), CbRes.cont)) 2 10 ()).2.1 = [2, 4294967287] ∧
    (enumerateClusters [4294967287, 4294967295, 4294967295, 4294967295] true
        (fun (_ : Unit) _ => ((), CbRes.cont)) 2 10 ()).2.2 =
      Except.error WalkErr.fatBounds ∧
    ¬ (4294967287 : Nat) < 5 + 2 ∧
    (enumerateClusters [4294967287, 4294967295, 4294967295, 4294967295] true
        (fun (n : Nat) c => (n + 1, if c == 4294967287 then CbRes.stop else CbRes.cont))
        2 10 0).2.2 = Except.ok () := by
  refine ⟨rfl, rfl, by decide, rfl⟩

/-- `readLE` on a long-enough stream reads the little-endian value of
the first `n` bytes and leaves the rest. -/
theorem readLE_eq_of_le : ∀ (n : Nat) (bs : List Nat), n ≤ bs.length →
    readLE n bs = some (valLE (bs.take n), bs.drop n) := by
  intro n
  induction n with
  | zero => intro bs _; simp [readLE, valLE]
  | succ n ih =>
    intro bs hlen
    match bs with
    | [] => simp at hlen
    | b :: t =>
      have ht : n ≤ t.length := by simp at hlen; omega
      simp [readLE, ih t ht, valLE]

/-- The low byte of a little-endian value is its first byte. -/
theorem valLE_mod256 (b : Nat) (bs : List Nat) : valLE (b :: bs) % 256 = b % 256 := by
  simp [valLE, Nat.add_mul_mod_self_left]

/-- `readFatEntries` on a long-enough stream reads `n` entries of 4
bytes each and leaves the rest. -/
theorem readFatEntries_of_le : ∀ (n : Nat) (bs : List Nat), 4 * n ≤ bs.length →
    ∃ vs, readFatEntries n bs = some (vs, bs.drop (4 * n)) ∧ vs.length = n := by
  intro n
  induction n with
  | zero => intro bs _; exact ⟨[], by simp [readFatEntries], rfl⟩
  | succ n ih =>
    intro bs hlen
    have h4 : 4 ≤ bs.length := by omega
    obtain ⟨vs, hvs, hl⟩ := ih (bs.drop 4) (by simp; omega)
    refine ⟨valLE (bs.take 4) :: vs, ?_, by simp [hl]⟩
    rw [readFatEntries, readLE_eq_of_le 4 bs h4]
    dsimp only
    rw [hvs]
    dsimp only
    simp only [List.drop_drop, Option.some.injEq, List.cons.injEq, true_and]
    have h44 : 4 + 4 * n = 4 * (n + 1) := by omega
    rw [h44]

/-- C8: each per-FAT parse (`parseFat`) fails with a media-type error
unless the low byte of FAT entry 0 is `0xF8`, fails with a sentinel
error unless entry 1 is `0xFFFFFFFF`, and otherwise reads exactly
`cluster_count - 1` further 32-bit entries and discards the
`fat_length*sector_size - 4*(cluster_count+1)` padding bytes, so that
the byte source advances by exactly `fat_length*sector_size` bytes.
The hypotheses record that the boot-sector fields are in the ranges the
arithmetic relies on (no uint32 overflow of the FAT byte size, a FAT
large enough for its entries) and that the stream covers the FAT. -/
theorem c8_parseFat_consumption (sectorSize fatLength clusterCount : Nat)
    (stream : List Nat)
    (hcc1 : 1 ≤ clusterCount)
    (hT : fatLength * sectorSize < 4294967296)
    (hfit : 4 * (clusterCount + 1) ≤ fatLength * sectorSize)
    (hlen : fatLength * sectorSize ≤ stream.length) :
    (valLE (stream.take 4) % 256 = 248 → valLE ((stream.drop 4).take 4) = 4294967295 →
      ∃ fat, parseFat sectorSize fatLength clusterCount stream =
          Except.ok (fat, stream.drop (fatLength * sectorSize)) ∧
        fat.length = clusterCount - 1) ∧
    (valLE (stream.take 4) % 256 ≠ 248 →
      parseFat sectorSize fatLength clusterCount stream =
        Except.error FatErr.badMediaType) ∧
    (valLE (stream.take 4) % 256 = 248 → valLE ((stream.drop 4).take 4) ≠ 4294967295 →
      parseFat sectorSize fatLength clusterCount stream =
        Except.error FatErr.badSecondEntry) := by
  have h4 : 4 ≤ stream.length := by omega
  have h8 : 8 ≤ stream.length := by omega
  have hr1 : readLE 4 stream = some (valLE (stream.take 4), stream.drop 4) :=
    readLE_eq_of_le 4 stream h4
  have hr2 : readLE 4 (stream.drop 4) =
      some (valLE ((stream.drop 4).take 4), (stream.drop 4).drop 4) :=
    readLE_eq_of_le 4 (stream.drop 4) (by simp; omega)
  refine ⟨?_, ?_, ?_⟩
  · intro hmedia hsentinel
    have hc1 : ¬ (valLE (stream.take 4) % 256 ≠ 248) := by omega
    have hc2 : ¬ (valLE ((stream.drop 4).take 4) ≠ 4294967295) := by omega
    have hcount : w32 (clusterCount + 4294967295) = clusterCount - 1 := by
      unfold w32; omega
    obtain ⟨fat, hfat, hfatlen⟩ := readFatEntries_of_le (clusterCount - 1)
      ((stream.drop 4).drop 4) (by simp; omega)
    refine ⟨fat, ?_, hfatlen⟩
    rw [parseFat, hr1]
    dsimp only
    rw [if_neg hc1, hr2]
    dsimp only
    rw [if_neg hc2]
    rw [hcount, hfat]
    dsimp only
    have hAw : w32 (clusterCount + 1) = clusterCount + 1 := by unfold w32; omega
    have hA : w32 (w32 (clusterCount + 1) * 4) = 4 * (clusterCount + 1) := by
      rw [hAw]; unfold w32; omega
    have hTw : w32 (fatLength * sectorSize) = fatLength * sectorSize := by
      unfold w32; omega
    rw [hTw, hA]
    have hex : w32 (fatLength * sectorSize + (4294967296 - 4 * (clusterCount + 1))) =
        fatLength * sectorSize - 4 * (clusterCount + 1) := by
      unfold w32; omega
    rw [hex]
    have hlen3 : (((stream.drop 4).drop 4).drop (4 * (clusterCount - 1))).length =
        stream.length - (4 + 4 * clusterCount) := by
      simp; omega
    rw [if_neg (by rw [hlen3]; omega)]
    simp only [List.drop_drop]
    have harith : 4 + 4 + 4 * (clusterCount - 1) +
        (fatLength * sectorSize - 4 * (clusterCount + 1)) = fatLength * sectorSize := by
      omega
    rw [harith]
  · intro hmedia
    rw [parseFat, hr1]
    dsimp only
    rw [if_pos hmedia]
  · intro hmedia hsentinel
    have hc1 : ¬ (valLE (stream.take 4) % 256 ≠ 248) := by omega
    rw [parseFat, hr1]
    dsimp only
    rw [if_neg hc1, hr2]
    dsimp only
    rw [if_pos hsentinel]

/-- C8 (witness): the FAT parse on a concrete 18-byte stream with
`fat_length = 4`, `sector_size = 4`, `cluster_count = 3`: two header
entries, two data entries, no padding; exactly 16 bytes consumed. -/
theorem c8_parseFat_consumption_witness :
    ∃ fat,
      parseFat 4 4 3
          [248, 255, 255, 255, 255, 255, 255, 255, 1, 0, 0, 0, 2, 0, 0, 0, 9, 9] =
        Except.ok (fat,
          ([248, 255, 255, 255, 255, 255, 255, 255, 1, 0, 0, 0, 2, 0, 0, 0, 9, 9] :
            List Nat).drop (4 * 4)) ∧
      fat.length = 3 - 1 :=
  (c8_parseFat_consumption 4 4 3
      [248, 255, 255, 255, 255, 255, 255, 255, 1, 0, 0, 0, 2, 0, 0, 0, 9, 9]
      (by decide) (by decide) (by decide) (by decide)).1 (by decide) (by decide)

/-- C10: with `data_size = 0` the extractor never succeeds.  When
`first_cluster < 2` it fails immediately (before writing anything);
when `first_cluster ≥ 2` the very first sector already satisfies the
last-sector test (`sector_size > 0 = data_size`), but since
`tail = 0 mod sector_size = 0` the data is not truncated: one full
sector of `sector_size` bytes is written to the sink, iteration stops,
and the final `written == data_size` check fails. -/
theorem c10_writeFromClusterChain_dataSize_zero
    (sectorSize spc : Nat) (fat : List Nat) (disk : Nat → Nat → List Nat)
    (firstClusterNumber : Nat) (useFat : Bool) (fuel : Nat)
    (hss : 0 < sectorSize) (hssw : sectorSize < 4294967296)
    (hspc : 0 < spc) (hfuel : 0 < fuel)
    (hdisk : (disk firstClusterNumber 0).length = sectorSize) :
    (firstClusterNumber < 2 →
      writeFromClusterChain sectorSize spc fat disk firstClusterNumber 0 useFat fuel =
        (⟨0, 0, [], true⟩, [], Except.error WalkErr.startTooLow)) ∧
    (2 ≤ firstClusterNumber →
      writeFromClusterChain sectorSize spc fat disk firstClusterNumber 0 useFat fuel =
        (⟨sectorSize, 1, [disk firstClusterNumber 0], false⟩, [firstClusterNumber],
          Except.error WalkErr.sizeMismatch)) := by
  constructor
  · intro hlow
    rw [writeFromClusterChain, enumerateClusters, if_pos hlow]
  · intro hge
    obtain ⟨f, rfl⟩ : ∃ f, fuel = f + 1 := ⟨fuel - 1, by omega⟩
    obtain ⟨k, rfl⟩ : ∃ k, spc = k + 1 := ⟨spc - 1, by omega⟩
    have hw1 : w32 1 = 1 := by unfold w32; omega
    have hstep : writeSectorStep sectorSize 0 (0 % sectorSize) ⟨0, 0, [], true⟩
        (disk firstClusterNumber 0) =
        (⟨sectorSize, 1, [disk firstClusterNumber 0], false⟩, false) := by
      rw [writeSectorStep]
      have hcond : 0 < w32 (w32 (0 + 1) * sectorSize) := by
        rw [hw1]
        unfold w32
        simpa [Nat.mod_eq_of_lt hssw] using hss
      rw [if_pos hcond]
      simp [Nat.zero_mod, hdisk, hw1]
    have hcb : writeClusterCb sectorSize (k + 1) 0 (0 % sectorSize) disk
        ⟨0, 0, [], true⟩ firstClusterNumber =
        (⟨sectorSize, 1, [disk firstClusterNumber 0], false⟩, CbRes.stop) := by
      rw [writeClusterCb, runSectors, hstep]
      rfl
    rw [writeFromClusterChain, enumerateClusters, if_neg (by omega), enumLoop,
      if_neg (by omega), hcb]
    simp [hss.ne']

/-- C10 (witness): the zero-data-size extraction evaluated at
`first_cluster = 1` (immediate failure) and `first_cluster = 2` (one
full 4-byte sector written, then the size check fails). -/
theorem c10_writeFromClusterChain_dataSize_zero_witness :
    writeFromClusterChain 4 1 [] (fun _ _ => [7, 7, 7, 7]) 1 0 true 1 =
      (⟨0, 0, [], true⟩, [], Except.error WalkErr.startTooLow) ∧
    writeFromClusterChain 4 1 [] (fun _ _ => [7, 7, 7, 7]) 2 0 true 1 =
      (⟨4, 1, [[7, 7, 7, 7]], false⟩, [2], Except.error WalkErr.sizeMismatch) :=
  ⟨(c10_writeFromClusterChain_dataSize_zero 4 1 [] (fun _ _ => [7, 7, 7, 7]) 1 true 1
      (by decide) (by decide) (by decide) (by decide) rfl).1 (by decide),
   (c10_writeFromClusterChain_dataSize_zero 4 1 [] (fun _ _ => [7, 7, 7, 7]) 2 true 1
      (by decide) (by decide) (by decide) (by decide) rfl).2 (by decide)⟩

/-- Every entry set `navUpdate` appends to the delivered list either
matches the declared secondary count of a `SecondaryCount()`-bearing
primary, or pairs a primary without one with the empty list. -/
theorem navUpdate_delivered_good (isPrim : Bool) (de : DirectoryEntry) (st : NavSt) :
    ∀ pr ∈ (navUpdate isPrim de st).delivered, pr ∈ st.delivered ∨
      (hasSecondaryCount pr.1 = true ∧ pr.2.length = secondaryCountOf pr.1) ∨
      (hasSecondaryCount pr.1 = false ∧ pr.2 = []) := by
  intro pr hpr
  unfold navUpdate at hpr
  cases isPrim with
  | true =>
    simp only [if_true] at hpr
    cases hsc : hasSecondaryCount de with
    | true =>
      rw [hsc] at hpr
      simp only [if_true] at hpr
      by_cases hlen : (([] : List DirectoryEntry).length == secondaryCountOf de) = true
      · rw [if_pos hlen] at hpr
        rcases List.mem_append.mp hpr with h | h
        · exact Or.inl h
        · right; left
          rcases List.mem_singleton.mp h with rfl
          refine ⟨hsc, ?_⟩
          simpa using beq_iff_eq.mp hlen
      · rw [if_neg hlen] at hpr
        exact Or.inl hpr
    | false =>
      rw [hsc] at hpr
      simp only [Bool.false_eq_true, if_false, if_true] at hpr
      rcases List.mem_append.mp hpr with h | h
      · exact Or.inl h
      · right; right
        rcases List.mem_singleton.mp h with rfl
        exact ⟨hsc, rfl⟩
  | false =>
    simp only [Bool.false_eq_true, if_false] at hpr
    cases hp : st.primary with
    | none => rw [hp] at hpr; exact Or.inl hpr
    | some p =>
      rw [hp] at hpr
      dsimp only at hpr
      cases hsc : hasSecondaryCount p with
      | true =>
        rw [hsc] at hpr
        simp only [if_true] at hpr
        by_cases hlen : ((st.secondaries ++ [de]).length == secondaryCountOf p) = true
        · rw [if_pos hlen] at hpr
          rcases List.mem_append.mp hpr with h | h
          · exact Or.inl h
          · right; left
            rcases List.mem_singleton.mp h with rfl
            refine ⟨hsc, ?_⟩
            simpa using beq_iff_eq.mp hlen
        · rw [if_neg hlen] at hpr
          exact Or.inl hpr
      | false =>
        rw [hsc] at hpr
        simp only [Bool.false_eq_true, if_false] at hpr
        exact Or.inl hpr


/-- C4: every entry set delivered by the directory enumeration pairs a
`SecondaryCount()`-bearing primary with exactly that many secondary
entries, and a primary without a secondary count with the empty list —
for any slot stream, whether or not the enumeration ends normally. -/
theorem c4_delivered_secondary_counts (slots : List (List Nat)) :
    ∀ pr ∈ (enumSlots slots navInit).1.delivered,
      (hasSecondaryCount pr.1 = true → pr.2.length = secondaryCountOf pr.1) ∧
      (hasSecondaryCount pr.1 = false → pr.2 = []) := by
  suffices h : ∀ (sl : List (List Nat)) (st : NavSt),
      (∀ pr ∈ st.delivered,
        (hasSecondaryCount pr.1 = true → pr.2.length = secondaryCountOf pr.1) ∧
        (hasSecondaryCount pr.1 = false → pr.2 = [])) →
      ∀ pr ∈ (enumSlots sl st).1.delivered,
        (hasSecondaryCount pr.1 = true → pr.2.length = secondaryCountOf pr.1) ∧
        (hasSecondaryCount pr.1 = false → pr.2 = []) by
    exact h slots navInit (by intro pr hpr; simp [navInit] at hpr)
  intro sl
  induction sl with
  | nil => intro st h; simpa [enumSlots] using h
  | cons slot rest ih =>
    intro st h
    rw [enumSlots]
    split
    · exact h
    · cases hp : parseDirectoryEntry slot with
      | error e => simp only [hp]; exact h
      | ok de =>
        simp only [hp]
        apply ih
        intro pr hpr
        have hcase := navUpdate_delivered_good (entryTypeIsPrimary (slotByte slot 0)) de st pr hpr
        rcases hcase with hin | ⟨hsc, hl⟩ | ⟨hsc, hl⟩
        · exact h pr hin
        · exact ⟨fun _ => hl, fun hf => by rw [hsc] at hf; cases hf⟩
        · exact ⟨fun ht => (by rw [hsc] at ht; cases ht), fun _ => hl⟩

/-- C4 (witness): the invariant applied to the concrete stream
`c4slots` (one File primary declaring one secondary, one File Name
entry): the delivered set pairs the primary with exactly one secondary
entry. -/
theorem c4_delivered_secondary_counts_witness :
    ([DirectoryEntry.fileName 0 (List.replicate 30 0)] : List DirectoryEntry).length =
      secondaryCountOf (DirectoryEntry.file 1 0 ([133, 1] ++ List.replicate 30 0)) :=
  ((c4_delivered_secondary_counts c4slots)
    (DirectoryEntry.file 1 0 ([133, 1] ++ List.replicate 30 0),
      [DirectoryEntry.fileName 0 (List.replicate 30 0)]) (by decide)).1 (by decide)

/-- The decoded length of `UnicodeFromAscii` is the number of non-zero
decoded code units. -/
theorem unicodeFromAscii_length (raw : List Nat) (n : Nat) :
    (unicodeFromAscii raw n).length =
      ((List.range n).map (fun i => decodeRune1 (slotByte raw (2 * i)))).countP
        (fun r => r ≠ 0) := by
  unfold unicodeFromAscii
  rw [List.length_take]
  exact Nat.min_eq_left (le_trans (List.countP_le_length _) (by simp))

/-- The length of the assembled multipart filename is the total number
of non-zero decoded units across the set's File Name fragments. -/
theorem multipartFilename_length (entries : List DirectoryEntry) :
    (multipartFilename entries).length = totalNonzeroUnits entries := by
  unfold multipartFilename totalNonzeroUnits
  induction entries with
  | nil => simp
  | cons e rest ih =>
    cases he : fileNameBytesOf e with
    | none => simpa [he] using ih
    | some bs =>
      simp only [List.filterMap_cons, he, List.flatten_cons, List.map_cons, List.sum_cons,
        List.length_append, ih]
      congr 1
      rw [unicodeFromAscii_length]
      rfl

/-- C5 (amended): for every File entry set indexed by
`IndexDirectoryEntries`, the attached complete filename is
`MultipartFilename(secondaries).Filename()` — the concatenation, in
encounter order, of each File Name fragment's 15 code units decoded by
their low bytes only, with zero units dropped by truncating each
fragment to its count of non-zero units — and its length equals that
total count of non-zero units; the Stream Extension's `name_length` is
not consulted and the length need not equal it. -/
theorem c5_indexed_filename_characterization (slots : List (List Nat)) :
    ∀ row ∈ indexFileSets slots,
      row.2.2 = multipartFilename row.2.1 ∧
      (row.2.2).length = totalNonzeroUnits row.2.1 := by
  intro row hrow
  unfold indexFileSets at hrow
  rw [List.mem_filterMap] at hrow
  obtain ⟨pr, hmem, hmap⟩ := hrow
  split at hmap
  · rcases Option.some.inj hmap with rfl
    exact ⟨rfl, multipartFilename_length _⟩
  · cases hmap

/-- C5 (amended, witness): the characterization applied to the indexed
File entry set of `c5slots`. -/
theorem c5_indexed_filename_characterization_witness :
    ([97, 98, 99] : List Nat) =
      multipartFilename
        [DirectoryEntry.streamExtension 0 2 0 0 0,
         DirectoryEntry.fileName 0 ([97, 0, 98, 0, 99, 0] ++ List.replicate 24 0)] ∧
    ([97, 98, 99] : List Nat).length =
      totalNonzeroUnits
        [DirectoryEntry.streamExtension 0 2 0 0 0,
         DirectoryEntry.fileName 0 ([97, 0, 98, 0, 99, 0] ++ List.replicate 24 0)] :=
  (c5_indexed_filename_characterization c5slots)
    (DirectoryEntry.file 2 0 ([133, 2] ++ List.replicate 30 0),
      [DirectoryEntry.streamExtension 0 2 0 0 0,
       DirectoryEntry.fileName 0 ([97, 0, 98, 0, 99, 0] ++ List.replicate 24 0)],
      [97, 98, 99]) (by decide)

/-- Every cluster number the walk loop hands to the callback is at
least 2 (the loop checks `current < 2` before each visit). -/
theorem enumLoop_visited_ge2 {σ : Type} (fat : List Nat) (useFat : Bool)
    (cb : σ → Nat → σ × CbRes) :
    ∀ (fuel current : Nat) (s : σ) (vis : List Nat),
      (∀ c ∈ vis, 2 ≤ c) →
      ∀ c ∈ (enumLoop fat useFat cb fuel current s vis).2.1, 2 ≤ c := by
  intro fuel
  induction fuel with
  | zero => intro current s vis h; simpa [enumLoop] using h
  | succ f ih =>
    intro current s vis h
    rw [enumLoop]
    split
    · exact h
    case isFalse hcur =>
      have h2 : ∀ c ∈ vis ++ [current], 2 ≤ c := by
        intro c hc
        rcases List.mem_append.mp hc with hc | hc
        · exact h c hc
        · rcases List.mem_singleton.mp hc with rfl; omega
      rcases hcb : cb s current with ⟨s1, r⟩
      cases r with
      | fail => simpa using h2
      | stop => simpa using h2
      | cont =>
        dsimp only
        split
        · split
          · simpa using h2
          · split
            · simpa using h2
            · exact ih _ _ _ h2
        · exact ih _ _ _ h2

/-- The walk loop only ever appends to the visited list. -/
theorem enumLoop_visited_extends {σ : Type} (fat : List Nat) (useFat : Bool)
    (cb : σ → Nat → σ × CbRes) :
    ∀ (fuel current : Nat) (s : σ) (vis : List Nat),
      ∃ ext, (enumLoop fat useFat cb fuel current s vis).2.1 = vis ++ ext := by
  intro fuel
  induction fuel with
  | zero => intro current s vis; exact ⟨[], by simp [enumLoop]⟩
  | succ f ih =>
    intro current s vis
    rw [enumLoop]
    split
    · exact ⟨[], by simp⟩
    · rcases hcb : cb s current with ⟨s1, r⟩
      cases r with
      | fail => exact ⟨[current], by simp⟩
      | stop => exact ⟨[current], by simp⟩
      | cont =>
        dsimp only
        split
        · split
          · exact ⟨[current], by simp⟩
          · split
            · exact ⟨[current], by simp⟩
            · obtain ⟨ext, hext⟩ := ih _ s1 (vis ++ [current])
              exact ⟨[current] ++ ext, by simpa [List.append_assoc] using hext⟩
        · obtain ⟨ext, hext⟩ := ih _ s1 (vis ++ [current])
          exact ⟨[current] ++ ext, by simpa [List.append_assoc] using hext⟩

/-- C2 (amended): during a FAT-following cluster walk, (a) every
cluster index handed to the callback is ≥ 2, but the upper bound
`cluster_count + 2` is not enforced at production time; (b) a FAT entry
equal to the BAD marker `0xFFFFFFF7` is not detected as BAD: its value
becomes the next cluster index, the bogus cluster is visited, and the
walk then fails only through the FAT-bounds check (and only when the
callback keeps continuing); (c) a next-cluster value below 2 makes the
walk fail before that cluster is visited; (d) any other next-cluster
value ≥ 2 — however large, in particular `≥ cluster_count + 2` — is
visited unconditionally.  The FAT-bounds check compares against the
parsed FAT's length, which is `cluster_count - 1`, not
`cluster_count + 2`. -/
theorem c2_cluster_walk_amended {σ : Type} (fat : List Nat) (cb : σ → Nat → σ × CbRes) :
    (∀ (start fuel : Nat) (s : σ),
      ∀ c ∈ (enumerateClusters fat true cb start fuel s).2.1, 2 ≤ c) ∧
    (∀ (c fuel : Nat) (s : σ) (vis : List Nat),
      2 ≤ c → c < fat.length → fat.length ≤ 4294967287 →
      (∀ (t : σ) (x : Nat), (cb t x).2 = CbRes.cont) →
      fat.getD (c - 2) 0 = 4294967287 →
      enumLoop fat true cb (fuel + 2) c s vis =
        ((cb (cb s c).1 4294967287).1, vis ++ [c, 4294967287],
          Except.error WalkErr.fatBounds)) ∧
    (∀ (c fuel : Nat) (s : σ) (vis : List Nat) (v : Nat),
      2 ≤ c → c < fat.length →
      (∀ (t : σ) (x : Nat), (cb t x).2 = CbRes.cont) →
      fat.getD (c - 2) 0 = v → v < 2 →
      enumLoop fat true cb (fuel + 2) c s vis =
        ((cb s c).1, vis ++ [c], Except.error WalkErr.clusterTooLow)) ∧
    (∀ (c fuel : Nat) (s : σ) (vis : List Nat) (v : Nat),
      2 ≤ c → c < fat.length →
      (∀ (t : σ) (x : Nat), (cb t x).2 = CbRes.cont) →
      fat.getD (c - 2) 0 = v → 2 ≤ v → v ≠ 4294967295 →
      ∃ tail, (enumLoop fat true cb (fuel + 2) c s vis).2.1 = vis ++ [c, v] ++ tail) := by
  refine ⟨?_, ?_, ?_, ?_⟩
  · intro start fuel s
    unfold enumerateClusters
    split
    · simp
    · exact enumLoop_visited_ge2 fat true cb fuel start s [] (by simp)
  · intro c fuel s vis hc hclen h47 hcont hbad
    have hstep : fuel + 2 = (fuel + 1) + 1 := rfl
    have hA : ¬ (c < 2) := by omega
    rw [hstep, enumLoop, if_neg hA]
    rcases hcb1 : cb s c with ⟨s1, r1⟩
    have hr1 : r1 = CbRes.cont := by
      have := hcont s c; rw [hcb1] at this; exact this
    subst hr1
    dsimp only
    rw [if_pos (rfl : true = true)]
    have hB : ¬ (fat.length ≤ c) := by omega
    rw [if_neg hB, hbad]
    have hC : ¬ (mappedClusterIsLast 4294967287 = true) := by decide
    rw [if_neg hC, enumLoop]
    have hD : ¬ ((4294967287 : Nat) < 2) := by decide
    rw [if_neg hD]
    rcases hcb2 : cb s1 4294967287 with ⟨s2, r2⟩
    have hr2 : r2 = CbRes.cont := by
      have := hcont s1 4294967287; rw [hcb2] at this; exact this
    subst hr2
    dsimp only
    rw [if_pos (rfl : true = true)]
    rw [if_pos (by omega : fat.length ≤ 4294967287)]
    have hs1 : s1 = (cb s c).1 := by rw [hcb1]
    have hs2 : s2 = (cb (cb s c).1 4294967287).1 := by rw [← hs1, hcb2]
    rw [hs2]
    simp [List.append_assoc]
  · intro c fuel s vis v hc hclen hcont hv hv2
    have hstep : fuel + 2 = (fuel + 1) + 1 := rfl
    have hA : ¬ (c < 2) := by omega
    rw [hstep, enumLoop, if_neg hA]
    rcases hcb1 : cb s c with ⟨s1, r1⟩
    have hr1 : r1 = CbRes.cont := by
      have := hcont s c; rw [hcb1] at this; exact this
    subst hr1
    dsimp only
    rw [if_pos (rfl : true = true)]
    have hB : ¬ (fat.length ≤ c) := by omega
    rw [if_neg hB, hv]
    have hC : ¬ (mappedClusterIsLast v = true) := by
      unfold mappedClusterIsLast
      simp
      omega
    rw [if_neg hC, enumLoop]
    rw [if_pos hv2]
  · intro c fuel s vis v hc hclen hcont hv hv2 hvne
    have hstep : fuel + 2 = (fuel + 1) + 1 := rfl
    have hA : ¬ (c < 2) := by omega
    rw [hstep, enumLoop, if_neg hA]
    rcases hcb1 : cb s c with ⟨s1, r1⟩
    have hr1 : r1 = CbRes.cont := by
      have := hcont s c; rw [hcb1] at this; exact this
    subst hr1
    dsimp only
    rw [if_pos (rfl : true = true)]
    have hB : ¬ (fat.length ≤ c) := by omega
    rw [if_neg hB, hv]
    have hC : ¬ (mappedClusterIsLast v = true) := by
      unfold mappedClusterIsLast
      simp
      omega
    rw [if_neg hC, enumLoop]
    have hD : ¬ (v < 2) := by omega
    rw [if_neg hD]
    rcases hcb2 : cb s1 v with ⟨s2, r2⟩
    have hr2 : r2 = CbRes.cont := by
      have := hcont s1 v; rw [hcb2] at this; exact this
    subst hr2
    dsimp only
    rw [if_pos (rfl : true = true)]
    split
    · exact ⟨[], by simp [List.append_assoc]⟩
    · split
      · exact ⟨[], by simp [List.append_assoc]⟩
      · obtain ⟨ext, hext⟩ :=
          enumLoop_visited_extends fat true cb fuel (fat.getD (v - 2) 0) s2
            ((vis ++ [c]) ++ [v])
        exact ⟨ext, by simpa [List.append_assoc] using hext⟩

/-- C2 (amended, witness): the characterization evaluated on the
concrete FAT `[0xFFFFFFF7, 4, 0, 0xFFFFFFFF, 0xFFFFFFFF]` (cluster
count 6) with a state-free always-continue callback: the produced bogus
index `0xFFFFFFF7` is ≥ 2; the BAD entry at cluster 2 leads to visiting
`0xFFFFFFF7` and then the FAT-bounds failure; the zero entry at cluster
4 fails before a visit; the entry 4 at cluster 3 is visited. -/
theorem c2_cluster_walk_amended_witness :
    (2 ≤ 4294967287 ∧
      4294967287 ∈ (enumerateClusters [4294967287, 4, 0, 4294967295, 4294967295] true
        (fun (_ : Unit) _ => ((), CbRes.cont)) 2 10 ()).2.1) ∧
    enumLoop [4294967287, 4, 0, 4294967295, 4294967295] true
        (fun (_ : Unit) _ => ((), CbRes.cont)) (10 + 2) 2 () [] =
      ((), [2, 4294967287], Except.error WalkErr.fatBounds) ∧
    enumLoop [4294967287, 4, 0, 4294967295, 4294967295] true
        (fun (_ : Unit) _ => ((), CbRes.cont)) (10 + 2) 4 () [] =
      ((), [4], Except.error WalkErr.clusterTooLow) ∧
    ∃ tail, (enumLoop [4294967287, 4, 0, 4294967295, 4294967295] true
        (fun (_ : Unit) _ => ((), CbRes.cont)) (10 + 2) 3 () []).2.1 =
      [] ++ [3, 4] ++ tail := by
  have hmem : (4294967287 : Nat) ∈ (enumerateClusters
      [4294967287, 4, 0, 4294967295, 4294967295] true
      (fun (_ : Unit) _ => ((), CbRes.cont)) 2 10 ()).2.1 := by decide
  refine ⟨⟨?_, hmem⟩, ?_, ?_, ?_⟩
  · exact (c2_cluster_walk_amended [4294967287, 4, 0, 4294967295, 4294967295]
      (fun (_ : Unit) _ => ((), CbRes.cont))).1 2 10 () 4294967287 hmem
  · exact (c2_cluster_walk_amended [4294967287, 4, 0, 4294967295, 4294967295]
      (fun (_ : Unit) _ => ((), CbRes.cont))).2.1 2 10 () [] (by decide) (by decide)
      (by decide) (fun _ _ => rfl) (by decide)
  · exact (c2_cluster_walk_amended [4294967287, 4, 0, 4294967295, 4294967295]
      (fun (_ : Unit) _ => ((), CbRes.cont))).2.2.1 4 10 () [] 0 (by decide) (by decide)
      (fun _ _ => rfl) (by decide) (by decide)
  · exact (c2_cluster_walk_amended [4294967287, 4, 0, 4294967295, 4294967295]
      (fun (_ : Unit) _ => ((), CbRes.cont))).2.2.2 3 10 () [] 4 (by decide) (by decide)
      (fun _ _ => rfl) (by decide) (by decide) (by decide)

/-- One sector step keeps `written` equal to the total length of the
chunks handed to the sink. -/
theorem writeSectorStep_written_sum (sectorSize dataSize tailFragmentSize : Nat)
    (s : WriteSt) (data : List Nat)
    (h : s.written = (s.chunks.map List.length).sum) :
    (writeSectorStep sectorSize dataSize tailFragmentSize s data).1.written =
      (((writeSectorStep sectorSize dataSize tailFragmentSize s data).1.chunks).map
        List.length).sum := by
  unfold writeSectorStep
  split
  · simp [h]
  · simp [h]

/-- The sector loop keeps `written` equal to the total chunk length. -/
theorem runSectors_written_sum (step : WriteSt → List Nat → WriteSt × Bool)
    (dataOf : Nat → List Nat)
    (hstep : ∀ s data, s.written = (s.chunks.map List.length).sum →
      (step s data).1.written = (((step s data).1.chunks).map List.length).sum) :
    ∀ (n i : Nat) (s : WriteSt), s.written = (s.chunks.map List.length).sum →
      (runSectors step dataOf i n s).written =
        (((runSectors step dataOf i n s).chunks).map List.length).sum := by
  intro n
  induction n with
  | zero => intro i s h; simpa [runSectors] using h
  | succ n ih =>
    intro i s h
    rw [runSectors]
    rcases hs : step s (dataOf i) with ⟨s2, b⟩
    have h2 : s2.written = (s2.chunks.map List.length).sum := by
      have := hstep s (dataOf i) h
      rw [hs] at this
      exact this
    cases b
    · exact h2
    · exact ih (i + 1) s2 h2

/-- The walk loop preserves any state invariant the callback
preserves. -/
theorem enumLoop_preserves {σ : Type} (P : σ → Prop) (fat : List Nat) (useFat : Bool)
    (cb : σ → Nat → σ × CbRes) (hcb : ∀ s c, P s → P (cb s c).1) :
    ∀ (fuel current : Nat) (s : σ) (vis : List Nat),
      P s → P (enumLoop fat useFat cb fuel current s vis).1 := by
  intro fuel
  induction fuel with
  | zero => intro current s vis h; simpa [enumLoop] using h
  | succ f ih =>
    intro current s vis h
    rw [enumLoop]
    split
    · exact h
    · rcases hcbv : cb s current with ⟨s1, r⟩
      have h1 : P s1 := by
        have := hcb s current h
        rw [hcbv] at this
        exact this
      cases r with
      | fail => exact h1
      | stop => exact h1
      | cont =>
        dsimp only
        split
        · split
          · exact h1
          · split
            · exact h1
            · exact ih _ s1 _ h1
        · exact ih _ s1 _ h1

/-- C1 (amended): (i) whenever `WriteFromClusterChain` returns success,
the bytes written to the sink total exactly `data_size` (and the call
fails whenever the accumulated `written` differs from `data_size`);
(ii) the last-sector detection is performed in 32-bit arithmetic: a
sector's bytes are truncated to the tail (when the tail is positive)
and iteration stopped exactly when
`((sector_count + 1) * sector_size) mod 2^32 > data_size` with
`sector_count` the 32-bit counter of sectors already written — when
`written + sector_size` exceeds `data_size` but that 32-bit product
wraps, the sector is written in full and iteration continues. -/
theorem c1_writeFromClusterChain_amended :
    (∀ (sectorSize spc : Nat) (fat : List Nat) (disk : Nat → Nat → List Nat)
       (firstClusterNumber dataSize : Nat) (useFat : Bool) (fuel : Nat),
      ((writeFromClusterChain sectorSize spc fat disk firstClusterNumber dataSize
            useFat fuel).2.2 = Except.ok () →
        (((writeFromClusterChain sectorSize spc fat disk firstClusterNumber dataSize
              useFat fuel).1.chunks).map List.length).sum = dataSize) ∧
      ((writeFromClusterChain sectorSize spc fat disk firstClusterNumber dataSize
            useFat fuel).1.written ≠ dataSize →
        ∃ e, (writeFromClusterChain sectorSize spc fat disk firstClusterNumber dataSize
            useFat fuel).2.2 = Except.error e)) ∧
    (∀ (sectorSize dataSize tailFragmentSize : Nat) (s : WriteSt) (data : List Nat),
      (dataSize < w32 (w32 (s.sectorCount + 1) * sectorSize) →
        (writeSectorStep sectorSize dataSize tailFragmentSize s data).1.chunks =
          s.chunks ++ [if 0 < tailFragmentSize then data.take tailFragmentSize else data] ∧
        (writeSectorStep sectorSize dataSize tailFragmentSize s data).2 = false) ∧
      (¬ dataSize < w32 (w32 (s.sectorCount + 1) * sectorSize) →
        (writeSectorStep sectorSize dataSize tailFragmentSize s data).1.chunks =
          s.chunks ++ [data] ∧
        (writeSectorStep sectorSize dataSize tailFragmentSize s data).2 = s.cont)) := by
  constructor
  · intro sectorSize spc fat disk firstClusterNumber dataSize useFat fuel
    have hcbP : ∀ (s : WriteSt) (c : Nat),
        s.written = (s.chunks.map List.length).sum →
        ((writeClusterCb sectorSize spc dataSize (dataSize % sectorSize) disk s c).1.written =
          (((writeClusterCb sectorSize spc dataSize (dataSize % sectorSize) disk s
              c).1.chunks).map List.length).sum) := by
      intro s c h
      unfold writeClusterCb
      exact runSectors_written_sum _ _
        (writeSectorStep_written_sum sectorSize dataSize (dataSize % sectorSize)) spc 0 s h
    have hmain : ∀ (st : WriteSt × List Nat × Except WalkErr Unit),
        st = enumerateClusters fat useFat
          (writeClusterCb sectorSize spc dataSize (dataSize % sectorSize) disk)
          firstClusterNumber fuel ⟨0, 0, [], true⟩ →
        st.1.written = ((st.1.chunks).map List.length).sum := by
      intro st hst
      rw [hst]
      unfold enumerateClusters
      split
      · simp
      · exact enumLoop_preserves
          (fun (s : WriteSt) => s.written = (s.chunks.map List.length).sum) fat useFat _
          hcbP fuel firstClusterNumber ⟨0, 0, [], true⟩ [] (by simp)
    rcases he : enumerateClusters fat useFat
        (writeClusterCb sectorSize spc dataSize (dataSize % sectorSize) disk)
        firstClusterNumber fuel ⟨0, 0, [], true⟩ with ⟨s, vis, r⟩
    have hsum : s.written = ((s.chunks).map List.length).sum := by
      have := hmain (s, vis, r) he.symm
      exact this
    have hunfold : writeFromClusterChain sectorSize spc fat disk firstClusterNumber
        dataSize useFat fuel =
        match (s, vis, r) with
        | (s, vis, Except.ok _) =>
          if s.written ≠ dataSize then (s, vis, Except.error WalkErr.sizeMismatch)
          else (s, vis, Except.ok ())
        | e => e := by
      unfold writeFromClusterChain
      dsimp only
      rw [he]
    cases r with
    | ok u =>
      by_cases hw : s.written ≠ dataSize
      · rw [hunfold]
        dsimp only
        rw [if_pos hw]
        exact ⟨fun h => Except.noConfusion h, fun _ => ⟨WalkErr.sizeMismatch, rfl⟩⟩
      · rw [hunfold]
        dsimp only
        rw [if_neg hw]
        refine ⟨fun _ => ?_, fun h => absurd h hw⟩
        dsimp only
        rw [← hsum]
        omega
    | error e =>
      rw [hunfold]
      exact ⟨fun h => Except.noConfusion h, fun _ => ⟨e, rfl⟩⟩
  · intro sectorSize dataSize tailFragmentSize s data
    constructor
    · intro hcond
      unfold writeSectorStep
      rw [if_pos hcond]
      exact ⟨rfl, rfl⟩
    · intro hcond
      unfold writeSectorStep
      rw [if_neg hcond]
      exact ⟨rfl, rfl⟩

/-- C1 (amended, witness): the characterization evaluated on a
successful two-cluster extraction (sector size 4, 6 bytes: one full
sector then a 2-byte tail), on the failing zero-size extraction, and on
one concrete sector step in each branch of the 32-bit condition. -/
theorem c1_writeFromClusterChain_amended_witness :
    ((writeFromClusterChain 4 1 [3, 4294967295, 0, 0] (fun _ _ => [7, 7, 7, 7]) 2 6
        true 5).1.chunks.map List.length).sum = 6 ∧
    (∃ e, (writeFromClusterChain 4 1 [3, 4294967295, 0, 0] (fun _ _ => [7, 7, 7, 7]) 2 0
        true 5).2.2 = Except.error e) ∧
    ((writeSectorStep 4 6 2 ⟨4, 1, [[7, 7, 7, 7]], true⟩ [7, 7, 7, 7]).1.chunks =
        [[7, 7, 7, 7]] ++ [[7, 7]] ∧
      (writeSectorStep 4 6 2 ⟨4, 1, [[7, 7, 7, 7]], true⟩ [7, 7, 7, 7]).2 = false) ∧
    ((writeSectorStep 4 6 2 ⟨0, 0, [], true⟩ [7, 7, 7, 7]).1.chunks = [] ++ [[7, 7, 7, 7]] ∧
      (writeSectorStep 4 6 2 ⟨0, 0, [], true⟩ [7, 7, 7, 7]).2 = true) := by
  refine ⟨?_, ?_, ?_, ?_⟩
  · exact (c1_writeFromClusterChain_amended.1 4 1 [3, 4294967295, 0, 0]
      (fun _ _ => [7, 7, 7, 7]) 2 6 true 5).1 rfl
  · exact (c1_writeFromClusterChain_amended.1 4 1 [3, 4294967295, 0, 0]
      (fun _ _ => [7, 7, 7, 7]) 2 0 true 5).2 (by decide)
  · have h := (c1_writeFromClusterChain_amended.2 4 6 2
      ⟨4, 1, [[7, 7, 7, 7]], true⟩ [7, 7, 7, 7]).1 (by decide)
    simpa using h
  · have h := (c1_writeFromClusterChain_amended.2 4 6 2
      ⟨0, 0, [], true⟩ [7, 7, 7, 7]).2 (by decide)
    simpa using h

/-- Any uint32 multiple of 4096 is at most `2^32 - 4096`. -/
theorem ceMul4096_bound (k : Nat) : w32 (k * 4096) ≤ 4294963200 := by
  unfold w32
  have h : (4294967296 : Nat) = 1048576 * 4096 := by norm_num
  rw [h, Nat.mul_mod_mul_right]
  have hk : k % 1048576 < 1048576 := Nat.mod_lt k (by norm_num)
  omega

/-- With `dataSize = 2^32 - 2048` and sector size 4096 the last-sector
condition of the extractor can never fire: the 32-bit product
`(sectorCount+1)*4096 mod 2^32` is at most `2^32 - 4096`, which is
below the data size, even when the true cumulative count has already
passed it. -/
theorem ceStep_no_trigger (s : WriteSt) (data : List Nat) :
    writeSectorStep 4096 dataSizeCE 2048 s data =
      (⟨s.written + data.length, w32 (s.sectorCount + 1), s.chunks ++ [data], s.cont⟩,
        s.cont) := by
  unfold writeSectorStep
  have hn : ¬ (dataSizeCE < w32 (w32 (s.sectorCount + 1) * 4096)) := by
    have h := ceMul4096_bound (w32 (s.sectorCount + 1))
    unfold dataSizeCE
    omega
  rw [if_neg hn]

/-- The counterexample's sector loop writes `n` full 4096-byte sectors
without ever stopping. -/
theorem ceRunSectors (c n : Nat) : ∀ (i : Nat) (s : WriteSt), s.cont = true →
    s.sectorCount + n < 4294967296 →
    runSectors (writeSectorStep 4096 dataSizeCE 2048) (diskCE c) i n s =
      ⟨s.written + n * 4096, s.sectorCount + n,
        s.chunks ++ List.replicate n (List.replicate 4096 0), true⟩ := by
  induction n with
  | zero =>
    intro i s hcont _
    obtain ⟨w, sc, ch, co⟩ := s
    dsimp only at hcont
    subst hcont
    simp [runSectors]
  | succ n ih =>
    intro i s hcont hlt
    rw [runSectors, ceStep_no_trigger, hcont]
    dsimp only
    have hsc : w32 (s.sectorCount + 1) = s.sectorCount + 1 := by unfold w32; omega
    rw [hsc, ih (i + 1) ⟨s.written + (diskCE c i).length, s.sectorCount + 1,
      s.chunks ++ [diskCE c i], true⟩ rfl (by dsimp only; omega)]
    have hd : diskCE c i = List.replicate 4096 0 := rfl
    rw [hd]
    have hrep : List.replicate (n + 1) (List.replicate 4096 0) =
        List.replicate 4096 0 :: List.replicate n (List.replicate 4096 0) :=
      List.replicate_succ _ _
    rw [hrep]
    simp only [WriteSt.mk.injEq, List.length_replicate, List.append_assoc,
      List.singleton_append]
    refine ⟨by omega, by omega, trivial, trivial⟩

/-- One whole cluster of the counterexample run: state `j` advances to
state `j + 1` and the callback asks to continue. -/
theorem ceCb (c j : Nat) (hj : j ≤ 128) :
    cbCE (stateAfterCE j) c = (stateAfterCE (j + 1), CbRes.cont) := by
  unfold cbCE writeClusterCb
  rw [ceRunSectors c 8192 0 (stateAfterCE j) rfl
    (by unfold stateAfterCE; dsimp only; omega)]
  unfold stateAfterCE
  dsimp only
  have h1 : j * 33554432 + 8192 * 4096 = (j + 1) * 33554432 := by ring_nf
  have h2 : j * 8192 + 8192 = (j + 1) * 8192 := by ring_nf
  have h3 : List.replicate (j * 8192) (List.replicate 4096 0) ++
      List.replicate 8192 (List.replicate 4096 0) =
      List.replicate ((j + 1) * 8192) (List.replicate 4096 0) := by
    have h4 : j * 8192 + 8192 = (j + 1) * 8192 := by ring
    rw [← List.replicate_add, h4]
  rw [h1, h2, h3]
  rfl

/-- The counterexample's cluster chain: from cluster `2 + j` with
`j + m = 128` remaining clusters, the walk runs to cluster 129, never
truncates, and ends normally with `2^32` bytes written. -/
theorem ceChain (m : Nat) : ∀ (f j : Nat) (vis : List Nat), 1 ≤ m → j + m = 128 →
    enumLoop fatCE true cbCE (f + m + 1) (2 + j) (stateAfterCE j) vis =
      (stateAfterCE 128, vis ++ (List.range m).map (fun t => 2 + j + t),
        Except.ok ()) := by
  have hlen : fatCE.length = 131 := by decide
  have hgd : ∀ i, i < 127 → fatCE.getD i 0 = i + 3 := by decide
  induction m with
  | zero => intro f j vis h1 _; omega
  | succ m ih =>
    intro f j vis _ hjm
    rw [enumLoop]
    have hA : ¬ (2 + j < 2) := by omega
    rw [if_neg hA, ceCb (2 + j) j (by omega)]
    dsimp only
    rw [if_pos (rfl : true = true)]
    have hB : ¬ (fatCE.length ≤ 2 + j) := by rw [hlen]; omega
    rw [if_neg hB]
    have hj2 : 2 + j - 2 = j := by omega
    rw [hj2]
    by_cases hm : m = 0
    · subst hm
      have hj127 : j = 127 := by omega
      subst hj127
      have hend : fatCE.getD 127 0 = 4294967295 := by decide
      rw [hend]
      have hL : mappedClusterIsLast 4294967295 = true := by decide
      rw [if_pos hL]
      have hr : (List.range (0 + 1)).map (fun t => 2 + 127 + t) = [2 + 127] := by decide
      rw [hr]
    · have hjlt : j < 127 := by omega
      rw [hgd j hjlt]
      have hC : mappedClusterIsLast (j + 3) = false := by
        unfold mappedClusterIsLast
        simp
        omega
      rw [hC]
      rw [if_neg (by simp)]
      have hcur : j + 3 = 2 + (j + 1) := by omega
      rw [hcur]
      have hfuel2 : f + (m + 1) = f + m + 1 := rfl
      rw [hfuel2, ih f (j + 1) (vis ++ [2 + j]) (by omega) (by omega)]
      simp only [Prod.mk.injEq, List.append_assoc, List.singleton_append, true_and]
      refine ⟨?_, trivial⟩
      rw [List.range_succ_eq_map]
      simp only [List.map_cons, List.map_map]
      have hh : 2 + j + 0 = 2 + j := by omega
      rw [hh]
      have hmap : List.map (fun t => 2 + (j + 1) + t) (List.range m) =
          List.map ((fun t => 2 + j + t) ∘ Nat.succ) (List.range m) := by
        apply List.map_congr_left
        intro t _
        simp only [Function.comp_apply]
        omega
      rw [hmap]

/-- The counterexample's cluster walk, from the initial state: all 128
clusters are visited and the walk ends normally. -/
theorem ceEnumLoop : enumLoop fatCE true cbCE (71 + 128 + 1) (2 + 0) (stateAfterCE 0) [] =
    (stateAfterCE 128, [] ++ (List.range 128).map (fun t => 2 + 0 + t),
      Except.ok ()) :=
  ceChain 128 71 0 [] (by omega) (by omega)

/-- The counterexample's `EnumerateClusters` call succeeds after
visiting clusters 2..129 and writing `2^32` bytes. -/
theorem ceEnum : enumerateClusters fatCE true cbCE 2 200 ⟨0, 0, [], true⟩ =
    (stateAfterCE 128, [] ++ (List.range 128).map (fun t => 2 + 0 + t),
      Except.ok ()) := by
  have h0 : stateAfterCE 0 = ⟨0, 0, [], true⟩ := by
    unfold stateAfterCE
    norm_num
  unfold enumerateClusters
  rw [if_neg (by omega)]
  rw [← h0]
  have hfuel : (200 : Nat) = 71 + 128 + 1 := by norm_num
  exact hfuel ▸ ceEnumLoop

/-- `WriteFromClusterChain` ends with the size-mismatch panic whenever
its cluster walk ends normally with `written ≠ dataSize`. -/
theorem writeFromClusterChain_eq_of_enum (sectorSize spc : Nat) (fat : List Nat)
    (disk : Nat → Nat → List Nat) (fcn dataSize : Nat) (useFat : Bool) (fuel : Nat)
    (s : WriteSt) (vis : List Nat)
    (h : enumerateClusters fat useFat
        (writeClusterCb sectorSize spc dataSize (dataSize % sectorSize) disk)
        fcn fuel ⟨0, 0, [], true⟩ = (s, vis, Except.ok ()))
    (hw : s.written ≠ dataSize) :
    writeFromClusterChain sectorSize spc fat disk fcn dataSize useFat fuel =
      (s, vis, Except.error WalkErr.sizeMismatch) := by
  unfold writeFromClusterChain
  dsimp only
  rw [h]
  dsimp only
  rw [if_pos hw]

/-- The full counterexample run: `2^32` bytes written over clusters
2..129, then the size-mismatch failure. -/
theorem ceRun : runCE = (stateAfterCE 128,
    [] ++ (List.range 128).map (fun t => 2 + 0 + t),
    Except.error WalkErr.sizeMismatch) := by
  unfold runCE
  exact writeFromClusterChain_eq_of_enum 4096 8192 fatCE diskCE 2 dataSizeCE true 200
    (stateAfterCE 128) ([] ++ (List.range 128).map (fun t => 2 + 0 + t))
    ceEnum (by unfold stateAfterCE dataSizeCE; dsimp only; omega)

/-- C1 (counterexample): the full counterexample run `runCE` — sector
size 4096, 8192 sectors per cluster, a 128-cluster FAT chain, and
`data_size = 2^32 - 2048` (tail 2048) — writes `2^20` chunks of 4096
bytes each and fails with the size mismatch.  Its 1048576-th sector
(index 1048575) starts with `written = 2^32 - 4096`, so
`written + sector_size > data_size` and the claim requires that
sector's bytes be truncated to the tail 2048 and the call to succeed
with `data_size` bytes; instead the 32-bit product
`(sectorCount+1)*4096 mod 2^32 = 0` misses the condition, the chunk is
written untruncated (4096 bytes) and the call fails. -/
theorem c1_counterexample :
    runCE.2.2 = Except.error WalkErr.sizeMismatch ∧
    runCE.1.chunks.length = 1048576 ∧
    (runCE.1.chunks.getD 1048575 []).length = 4096 ∧
    dataSizeCE < ((runCE.1.chunks.take 1048575).map List.length).sum + 4096 ∧
    dataSizeCE % 4096 = 2048 ∧ (0 : Nat) < 2048 ∧ (4096 : Nat) ≠ 2048 := by
  have htail : dataSizeCE % 4096 = 2048 := by decide
  have hx : ((runCE.1.chunks.take 1048575).map List.length).sum = 1048575 * 4096 := by
    rw [ceRun]
    unfold stateAfterCE
    dsimp only
    have hmin : min 1048575 (128 * 8192) = 1048575 := by omega
    rw [List.take_replicate, List.map_replicate, List.length_replicate,
      List.sum_replicate, hmin, smul_eq_mul]
  refine ⟨?_, ?_, ?_, ?_, htail, by norm_num, by norm_num⟩
  · rw [ceRun]
  · rw [ceRun]
    unfold stateAfterCE
    dsimp only
    rw [List.length_replicate]
  · rw [ceRun]
    unfold stateAfterCE
    dsimp only
    rw [List.getD_eq_getElem?_getD, List.getElem?_replicate]
    rw [if_pos (by norm_num)]
    rw [Option.getD_some, List.length_replicate]
  · rw [hx]
    unfold dataSizeCE
    omega


/-- `goStringLt` is irreflexive. -/
theorem goStringLt_irrefl : ∀ a, goStringLt a a = false
  | [] => rfl
  | x :: xs => by
    rw [goStringLt]
    rw [if_neg (lt_irrefl x), if_neg (lt_irrefl x)]
    exact goStringLt_irrefl xs

/-- `goStringLt` is transitive. -/
theorem goStringLt_trans : ∀ a b c, goStringLt a b = true → goStringLt b c = true →
    goStringLt a c = true
  | [], [], _, hab, _ => by cases hab
  | [], _ :: _, [], _, hbc => by cases hbc
  | [], _ :: _, _ :: _, _, _ => rfl
  | _ :: _, [], _, hab, _ => by cases hab
  | _ :: _, _ :: _, [], _, hbc => by cases hbc
  | a :: as, b :: bs, c :: cs, hab, hbc => by
    rw [goStringLt] at hab hbc ⊢
    by_cases h1 : a < b
    · by_cases h2 : b < c
      · rw [if_pos (lt_trans h1 h2)]
      · rw [if_neg h2] at hbc
        by_cases h4 : c < b
        · rw [if_pos h4] at hbc; cases hbc
        · have hcb : b = c := by omega
          subst hcb
          rw [if_pos h1]
    · rw [if_neg h1] at hab
      by_cases h3 : b < a
      · rw [if_pos h3] at hab; cases hab
      · have hba : a = b := by omega
        subst hba
        by_cases h2 : a < c
        · rw [if_pos h2]
        · rw [if_neg h2] at hbc
          by_cases h4 : c < a
          · rw [if_pos h4] at hbc; cases hbc
          · have hca : a = c := by omega
            subst hca
            rw [if_neg h3] at hab
            rw [if_neg h4] at hbc
            rw [if_neg h2, if_neg h2]
            exact goStringLt_trans as bs cs hab hbc


/-- `goStringLt` is total: two mutually non-smaller strings are equal. -/
theorem goStringLt_eq_of_not_lt : ∀ a b, goStringLt a b = false → goStringLt b a = false →
    a = b
  | [], [], _, _ => rfl
  | [], _ :: _, hab, _ => by cases hab
  | _ :: _, [], _, hba => by cases hba
  | a :: as, b :: bs, hab, hba => by
    rw [goStringLt] at hab hba
    by_cases h1 : a < b
    · rw [if_pos h1] at hab; cases hab
    · by_cases h2 : b < a
      · rw [if_pos h2] at hba; cases hba
      · have he : a = b := by omega
        subst he
        rw [if_neg h1, if_neg h1] at hab
        rw [if_neg h2, if_neg h2] at hba
        rw [goStringLt_eq_of_not_lt as bs hab hba]

/-- `goStringLt` is asymmetric. -/
theorem goStringLt_asymm (a b : List Nat) (h : goStringLt a b = true) :
    goStringLt b a = false := by
  cases hc : goStringLt b a
  · rfl
  · have := goStringLt_trans a b a h hc
    rw [goStringLt_irrefl] at this
    cases this

/-- Go's `sort.Search` on a predicate monotone over `[i, j)` returns
the boundary: `f` is false strictly below the result and true from the
result on. -/
theorem sortSearch_spec (f : Nat → Bool) : ∀ (i j : Nat), i ≤ j →
    (∀ a b, i ≤ a → a ≤ b → b < j → f a = true → f b = true) →
    i ≤ sortSearch f i j ∧ sortSearch f i j ≤ j ∧
    (∀ k, i ≤ k → k < sortSearch f i j → f k = false) ∧
    (∀ k, sortSearch f i j ≤ k → k < j → f k = true) := by
  intro i j hij hmono
  rw [sortSearch]
  by_cases h : i < j
  · rw [dif_pos h]
    have hm1 : (i + j) / 2 < j := Nat.div_lt_of_lt_mul (by omega)
    have hm2 : i ≤ (i + j) / 2 := (Nat.le_div_iff_mul_le (by omega)).mpr (by omega)
    cases hf : f ((i + j) / 2)
    · rw [if_neg (show ¬ (false = true) by decide)]
      obtain ⟨h1, h2, h3, h4⟩ := sortSearch_spec f ((i + j) / 2 + 1) j (by omega)
        (fun a b ha hab hb hfa => hmono a b (by omega) hab hb hfa)
      refine ⟨by omega, h2, ?_, h4⟩
      intro k hk1 hk2
      by_cases hkm : k ≤ (i + j) / 2
      · cases hfk : f k
        · rfl
        · have := hmono k ((i + j) / 2) hk1 hkm hm1 hfk
          rw [hf] at this
          cases this
      · exact h3 k (by omega) hk2
    · rw [if_pos (rfl : true = true)]
      obtain ⟨h1, h2, h3, h4⟩ := sortSearch_spec f i ((i + j) / 2) hm2
        (fun a b ha hab hb hfa => hmono a b ha hab (by omega) hfa)
      refine ⟨h1, by omega, h3, ?_⟩
      intro k hk1 hk2
      by_cases hkm : k < (i + j) / 2
      · exact h4 k hk1 hkm
      · exact hmono ((i + j) / 2) k hm2 (by omega) hk2 hf
  · rw [dif_neg h]
    exact ⟨le_refl i, hij, fun k hk1 hk2 => absurd hk2 (by omega),
      fun k hk1 hk2 => absurd hk2 (by omega)⟩
termination_by i j => j - i
decreasing_by
  all_goals simp_wf
  all_goals omega


/-- Indexed reading of a strict sort: earlier elements are smaller. -/
theorem sorted_getD {l : List (List Nat)} (hs : l.Pairwise (fun a b => goStringLt a b = true))
    {k1 k2 : Nat} (h12 : k1 < k2) (h2 : k2 < l.length) :
    goStringLt (l.getD k1 []) (l.getD k2 []) = true := by
  have h1 : k1 < l.length := by omega
  rw [List.getD_eq_getElem?_getD, List.getD_eq_getElem?_getD,
    List.getElem?_eq_getElem h1, List.getElem?_eq_getElem h2,
    Option.getD_some, Option.getD_some]
  exact List.pairwise_iff_getElem.mp hs k1 k2 h1 h2 h12

/-- `sort.StringSlice.Search` on a sorted slice: every element strictly
below the returned index is `< x`, and every element from the index on
is `>= x`. -/
theorem searchNames_spec (l : List (List Nat)) (x : List Nat)
    (hs : l.Pairwise (fun a b => goStringLt a b = true)) :
    searchNames l x ≤ l.length ∧
    (∀ k, k < searchNames l x → goStringLt (l.getD k []) x = true) ∧
    (∀ k, searchNames l x ≤ k → k < l.length → goStringLt (l.getD k []) x = false) := by
  have hmono : ∀ a b, 0 ≤ a → a ≤ b → b < l.length →
      (! goStringLt (l.getD a []) x) = true → (! goStringLt (l.getD b []) x) = true := by
    intro a b _ hab hb hfa
    rcases Nat.lt_or_ge a b with hcase | hcase
    · cases hlb : goStringLt (l.getD b []) x
      · rfl
      · have hll : goStringLt (l.getD a []) (l.getD b []) = true := sorted_getD hs hcase hb
        have := goStringLt_trans _ _ _ hll hlb
        rw [Bool.not_eq_eq_eq_not] at hfa
        rw [hfa] at this
        cases this
    · have hba : a = b := by omega
      subst hba
      exact hfa
  obtain ⟨H1, H2, H3, H4⟩ :=
    sortSearch_spec (fun h => ! goStringLt (l.getD h []) x) 0 l.length (Nat.zero_le _) hmono
  unfold searchNames
  refine ⟨H2, ?_, ?_⟩
  · intro k hk
    have h := H3 k (Nat.zero_le _) hk
    rw [Bool.not_eq_false'] at h
    exact h
  · intro k hk1 hk2
    have h := H4 k hk1 hk2
    rw [Bool.not_eq_true'] at h
    exact h


/-- Every member of `l.take r` is an `l.getD` at an index below `r`. -/
theorem mem_take_getD {l : List (List Nat)} {r : Nat} {a : List Nat} (h : a ∈ l.take r) :
    ∃ k, k < r ∧ k < l.length ∧ l.getD k [] = a := by
  obtain ⟨k, hk, he⟩ := List.mem_iff_getElem.mp h
  have hlen : (l.take r).length = min r l.length := List.length_take r l
  have h1 : k < r := by omega
  have h2 : k < l.length := by omega
  refine ⟨k, h1, h2, ?_⟩
  rw [List.getD_eq_getElem?_getD, List.getElem?_eq_getElem h2, Option.getD_some]
  rw [← he, List.getElem_take]

/-- Every member of `l.drop r` is an `l.getD` at an index at least `r`. -/
theorem mem_drop_getD {l : List (List Nat)} {r : Nat} {a : List Nat} (h : a ∈ l.drop r) :
    ∃ k, r ≤ k ∧ k < l.length ∧ l.getD k [] = a := by
  obtain ⟨k, hk, he⟩ := List.mem_iff_getElem.mp h
  have hlen : (l.drop r).length = l.length - r := List.length_drop r l
  have h2 : r + k < l.length := by omega
  refine ⟨r + k, by omega, h2, ?_⟩
  rw [List.getD_eq_getElem?_getD, List.getElem?_eq_getElem h2, Option.getD_some]
  rw [← he, List.getElem_drop]

/-- An in-range `l.getD` is a member. -/
theorem getD_mem {l : List (List Nat)} {k : Nat} (h : k < l.length) : l.getD k [] ∈ l := by
  rw [List.getD_eq_getElem?_getD, List.getElem?_eq_getElem h, Option.getD_some]
  exact List.getElem_mem h

/-- `AddChild`'s sorted insertion keeps the name list strictly sorted
and merely adds `name` to its members (no duplicate is created). -/
theorem insertChildName_sorted_mem (l : List (List Nat)) (x : List Nat)
    (hs : l.Pairwise (fun a b => goStringLt a b = true)) :
    (insertChildName l x).Pairwise (fun a b => goStringLt a b = true) ∧
    (∀ y, y ∈ insertChildName l x ↔ y ∈ l ∨ y = x) := by
  obtain ⟨hr1, hr2, hr3⟩ := searchNames_spec l x hs
  unfold insertChildName
  by_cases hc1 : l.length ≤ searchNames l x
  · rw [if_pos hc1]
    constructor
    · rw [List.pairwise_append]
      refine ⟨hs, List.pairwise_singleton _ _, ?_⟩
      intro a ha b hb
      rw [List.mem_singleton] at hb
      subst hb
      obtain ⟨k, hk, he⟩ := List.mem_iff_getElem.mp ha
      have hgd : l.getD k [] = a := by
        rw [List.getD_eq_getElem?_getD, List.getElem?_eq_getElem hk, Option.getD_some, he]
      rw [← hgd]
      exact hr2 k (by omega)
    · intro y
      rw [List.mem_append, List.mem_singleton]
  · rw [if_neg hc1]
    have hrlen : searchNames l x < l.length := by omega
    by_cases hc2 : l.getD (searchNames l x) [] ≠ x
    · rw [if_pos hc2]
      have htake : ∀ a ∈ l.take (searchNames l x), goStringLt a x = true := by
        intro a ha
        obtain ⟨k, hk1, hk2, he⟩ := mem_take_getD ha
        rw [← he]
        exact hr2 k hk1
      have hdrop : ∀ b ∈ l.drop (searchNames l x), goStringLt x b = true := by
        intro b hb
        obtain ⟨k, hk1, hk2, he⟩ := mem_drop_getD hb
        have hge : goStringLt (l.getD k []) x = false := hr3 k hk1 hk2
        have hne : l.getD k [] ≠ x := by
          intro heq
          rcases Nat.lt_or_ge (searchNames l x) k with hlt | hge2
          · have hll : goStringLt (l.getD (searchNames l x) [])
                (l.getD k []) = true := sorted_getD hs hlt hk2
            rw [heq] at hll
            have := hr3 (searchNames l x) (le_refl _) hrlen
            rw [hll] at this
            cases this
          · have hek : k = searchNames l x := by omega
            rw [hek] at heq
            exact hc2 heq
        cases hxb : goStringLt x (l.getD k []) with
        | true => rw [← he]; exact hxb
        | false =>
          have := goStringLt_eq_of_not_lt _ _ hge hxb
          exact absurd this hne
      constructor
      · rw [List.pairwise_append, List.pairwise_append]
        refine ⟨⟨?_, ?_, ?_⟩, ?_, ?_⟩
        · exact hs.sublist (List.take_sublist _ _)
        · exact List.pairwise_singleton _ _
        · intro a ha b hb
          rw [List.mem_singleton] at hb
          subst hb
          exact htake a ha
        · exact hs.sublist (List.drop_sublist _ _)
        · intro a ha b hb
          rw [List.mem_append, List.mem_singleton] at ha
          rcases ha with ha | ha
          · obtain ⟨k1, hk11, hk12, he1⟩ := mem_take_getD ha
            obtain ⟨k2, hk21, hk22, he2⟩ := mem_drop_getD hb
            rw [← he1, ← he2]
            exact sorted_getD hs (by omega) hk22
          · subst ha
            exact hdrop b hb
      · intro y
        constructor
        · intro hy
          rw [List.append_assoc, List.mem_append] at hy
          rcases hy with hy | hy
          · exact Or.inl (List.mem_of_mem_take hy)
          · rw [List.mem_append, List.mem_singleton] at hy
            rcases hy with hy | hy
            · exact Or.inr hy
            · exact Or.inl (List.mem_of_mem_drop hy)
        · intro hy
          rw [List.append_assoc, List.mem_append, List.mem_append, List.mem_singleton]
          rcases hy with hy | hy
          · rw [← List.take_append_drop (searchNames l x) l, List.mem_append] at hy
            rcases hy with hy | hy
            · exact Or.inl hy
            · exact Or.inr (Or.inr hy)
          · exact Or.inr (Or.inl hy)
    · rw [if_neg hc2]
      rw [not_not] at hc2
      have hxl : x ∈ l := by
        rw [← hc2]
        exact getD_mem hrlen
      refine ⟨hs, ?_⟩
      intro y
      constructor
      · exact Or.inl
      · intro hy
        rcases hy with hy | hy
        · exact hy
        · rw [hy]; exact hxl


/-- Two strictly sorted name lists with the same members are equal. -/
theorem sorted_eq_of_mem_iff : ∀ (l1 l2 : List (List Nat)),
    l1.Pairwise (fun a b => goStringLt a b = true) →
    l2.Pairwise (fun a b => goStringLt a b = true) →
    (∀ y, y ∈ l1 ↔ y ∈ l2) → l1 = l2
  | [], [], _, _, _ => rfl
  | [], b :: bs, _, _, hm => by
    have := (hm b).mpr (List.mem_cons_self b bs)
    cases this
  | a :: as, [], _, _, hm => by
    have := (hm a).mp (List.mem_cons_self a as)
    cases this
  | a :: as, b :: bs, h1, h2, hm => by
    rw [List.pairwise_cons] at h1 h2
    have hab : a = b := by
      have ha2 : a ∈ b :: bs := (hm a).mp (List.mem_cons_self a as)
      have hb1 : b ∈ a :: as := (hm b).mpr (List.mem_cons_self b bs)
      rw [List.mem_cons] at ha2 hb1
      rcases ha2 with ha2 | ha2
      · exact ha2
      · rcases hb1 with hb1 | hb1
        · exact hb1.symm
        · have hab2 : goStringLt a b = true := h1.1 b hb1
          have hba : goStringLt b a = true := h2.1 a ha2
          rw [goStringLt_asymm a b hab2] at hba
          cases hba
    subst hab
    have htl : ∀ y, y ∈ as ↔ y ∈ bs := by
      intro y
      constructor
      · intro hy
        have hmem : y ∈ a :: bs := (hm y).mp (List.mem_cons_of_mem a hy)
        rw [List.mem_cons] at hmem
        rcases hmem with hmem | hmem
        · subst hmem
          have := h1.1 y hy
          rw [goStringLt_irrefl] at this
          cases this
        · exact hmem
      · intro hy
        have hmem : y ∈ a :: as := (hm y).mpr (List.mem_cons_of_mem a hy)
        rw [List.mem_cons] at hmem
        rcases hmem with hmem | hmem
        · subst hmem
          have := h2.1 y hy
          rw [goStringLt_irrefl] at this
          cases this
        · exact hmem
    rw [sorted_eq_of_mem_iff as bs h1.2 h2.2 htl]

/-- Invariant of the `AddChild` fold: both lists stay strictly sorted,
and their members are the starting members plus the added names of the
matching kind. -/
theorem addChildren_fold (ops : List (List Nat × Bool)) : ∀ (c : Children),
    c.childrenFolders.Pairwise (fun a b => goStringLt a b = true) →
    c.childrenFiles.Pairwise (fun a b => goStringLt a b = true) →
    (ops.foldl (fun c op => addChild c op.1 op.2) c).childrenFolders.Pairwise
      (fun a b => goStringLt a b = true) ∧
    (ops.foldl (fun c op => addChild c op.1 op.2) c).childrenFiles.Pairwise
      (fun a b => goStringLt a b = true) ∧
    (∀ y, y ∈ (ops.foldl (fun c op => addChild c op.1 op.2) c).childrenFolders ↔
      y ∈ c.childrenFolders ∨ (y, true) ∈ ops) ∧
    (∀ y, y ∈ (ops.foldl (fun c op => addChild c op.1 op.2) c).childrenFiles ↔
      y ∈ c.childrenFiles ∨ (y, false) ∈ ops) := by
  induction ops with
  | nil =>
    intro c hfo hfi
    refine ⟨hfo, hfi, ?_, ?_⟩ <;> intro y <;> simp
  | cons op rest ih =>
    intro c hfo hfi
    rw [List.foldl_cons]
    obtain ⟨name, isDir⟩ := op
    cases isDir
    · have hstep : addChild c name false =
          ⟨c.childrenFolders, insertChildName c.childrenFiles name⟩ := by
        unfold addChild
        rw [if_neg (by simp)]
      rw [hstep]
      obtain ⟨hins, hmem⟩ := insertChildName_sorted_mem c.childrenFiles name hfi
      obtain ⟨H1, H2, H3, H4⟩ := ih ⟨c.childrenFolders, insertChildName c.childrenFiles name⟩
        hfo hins
      refine ⟨H1, H2, ?_, ?_⟩
      · intro y
        rw [H3 y]
        dsimp only
        rw [List.mem_cons]
        constructor
        · intro h
          rcases h with h | h
          · exact Or.inl h
          · exact Or.inr (Or.inr h)
        · intro h
          rcases h with h | h | h
          · exact Or.inl h
          · cases h
          · exact Or.inr h
      · intro y
        rw [H4 y]
        dsimp only
        rw [hmem y, List.mem_cons]
        constructor
        · intro h
          rcases h with (h | h) | h
          · exact Or.inl h
          · subst h
            exact Or.inr (Or.inl rfl)
          · exact Or.inr (Or.inr h)
        · intro h
          rcases h with h | h | h
          · exact Or.inl (Or.inl h)
          · rw [Prod.mk.injEq] at h
            exact Or.inl (Or.inr h.1)
          · exact Or.inr h
    · have hstep : addChild c name true =
          ⟨insertChildName c.childrenFolders name, c.childrenFiles⟩ := by
        unfold addChild
        rw [if_pos rfl]
      rw [hstep]
      obtain ⟨hins, hmem⟩ := insertChildName_sorted_mem c.childrenFolders name hfo
      obtain ⟨H1, H2, H3, H4⟩ := ih ⟨insertChildName c.childrenFolders name, c.childrenFiles⟩
        hins hfi
      refine ⟨H1, H2, ?_, ?_⟩
      · intro y
        rw [H3 y]
        dsimp only
        rw [hmem y, List.mem_cons]
        constructor
        · intro h
          rcases h with (h | h) | h
          · exact Or.inl h
          · subst h
            exact Or.inr (Or.inl rfl)
          · exact Or.inr (Or.inr h)
        · intro h
          rcases h with h | h | h
          · exact Or.inl (Or.inl h)
          · rw [Prod.mk.injEq] at h
            exact Or.inl (Or.inr h.1)
          · exact Or.inr h
      · intro y
        rw [H4 y]
        dsimp only
        rw [List.mem_cons]
        constructor
        · intro h
          rcases h with h | h
          · exact Or.inl h
          · exact Or.inr (Or.inr h)
        · intro h
          rcases h with h | h | h
          · exact Or.inl h
          · cases h
          · exact Or.inr h


/-- Both lists produced by a sequence of `AddChild` operations are
strictly sorted. -/
theorem addChildren_sorted (ops : List (List Nat × Bool)) :
    (addChildren ops).childrenFolders.Pairwise (fun a b => goStringLt a b = true) ∧
    (addChildren ops).childrenFiles.Pairwise (fun a b => goStringLt a b = true) := by
  obtain ⟨H1, H2, _, _⟩ := addChildren_fold ops ⟨[], []⟩ (List.Pairwise.nil) (List.Pairwise.nil)
  exact ⟨H1, H2⟩

/-- Extensionality for the pair of child-name lists. -/
theorem children_ext (c d : Children) (h1 : c.childrenFolders = d.childrenFolders)
    (h2 : c.childrenFiles = d.childrenFiles) : c = d := by
  cases c
  cases d
  dsimp only at h1 h2
  rw [h1, h2]

/-- The result of a sequence of `AddChild` operations depends only on
the set of operations, not on their order: any permutation (such as
another Go map iteration order) produces the same two lists. -/
theorem addChildren_perm (ops ops2 : List (List Nat × Bool)) (hp : ops.Perm ops2) :
    addChildren ops = addChildren ops2 := by
  obtain ⟨H1, H2, H3, H4⟩ := addChildren_fold ops ⟨[], []⟩ (List.Pairwise.nil) (List.Pairwise.nil)
  obtain ⟨G1, G2, G3, G4⟩ := addChildren_fold ops2 ⟨[], []⟩ (List.Pairwise.nil) (List.Pairwise.nil)
  unfold addChildren
  have hfo : (ops.foldl (fun c op => addChild c op.1 op.2) ⟨[], []⟩).childrenFolders =
      (ops2.foldl (fun c op => addChild c op.1 op.2) ⟨[], []⟩).childrenFolders := by
    apply sorted_eq_of_mem_iff _ _ H1 G1
    intro y
    rw [H3 y, G3 y]
    constructor
    · intro h
      rcases h with h | h
      · cases h
      · exact Or.inr (hp.mem_iff.mp h)
    · intro h
      rcases h with h | h
      · cases h
      · exact Or.inr (hp.mem_iff.mpr h)
  have hfi : (ops.foldl (fun c op => addChild c op.1 op.2) ⟨[], []⟩).childrenFiles =
      (ops2.foldl (fun c op => addChild c op.1 op.2) ⟨[], []⟩).childrenFiles := by
    apply sorted_eq_of_mem_iff _ _ H2 G2
    intro y
    rw [H4 y, G4 y]
    constructor
    · intro h
      rcases h with h | h
      · cases h
      · exact Or.inr (hp.mem_iff.mp h)
    · intro h
      rcases h with h | h
      · cases h
      · exact Or.inr (hp.mem_iff.mpr h)
  exact children_ext _ _ hfo hfi


/-- A successful map lookup is a map member. -/
theorem lookupChild_mem : ∀ (m : List (List Nat × TNode)) (f : List Nat) (t : TNode),
    lookupChild m f = some t → ∃ k, (k, t) ∈ m
  | [], _, _, h => by cases h
  | (k0, t0) :: rest, f, t, h => by
    rw [lookupChild] at h
    by_cases hk : k0 = f
    · rw [if_pos hk] at h
      rw [Option.some.injEq] at h
      subst h
      exact ⟨k0, List.mem_cons_self _ _⟩
    · rw [if_neg hk] at h
      obtain ⟨k, hm⟩ := lookupChild_mem rest f t h
      exact ⟨k, List.mem_cons_of_mem _ hm⟩

/-- On a well-formed loaded tree the source traversal agrees with the
spec-shaped traversal: the lazy-load and non-directory branches of the
folder loop never fire. -/
theorem visitGo_eq_specVisit (fuel : Nat) : ∀ (n : TNode) (path : List (List Nat)),
    TreeWF n → visitGo fuel n path = specVisit fuel n path := by
  induction fuel with
  | zero => intro n path _; rfl
  | succ fuel ih =>
    intro n path hwf
    cases hwf with
    | mk nm d fo fi m hm hfo =>
      rw [visitGo, specVisit]
      have hfold : ∀ (fo2 : List (List Nat)),
          (∀ f ∈ fo2, ∃ t, lookupChild m f = some t ∧ nodeIsDirectory t = true ∧
            nodeLoaded t = true) →
          visitFold (visitGo fuel) m path fo2 = specVisitFold (specVisit fuel) m path fo2 := by
        intro fo2
        induction fo2 with
        | nil => intro _; rfl
        | cons f rest ihf =>
          intro hfo2
          obtain ⟨t, hl, hd, hlo⟩ := hfo2 f (List.mem_cons_self _ _)
          rw [visitFold, specVisitFold, hl]
          dsimp only
          rw [hd, hlo]
          rw [if_pos (rfl : true = true), if_pos (rfl : true = true)]
          have hwt : TreeWF t := by
            obtain ⟨k, hk⟩ := lookupChild_mem m f t hl
            exact hm (k, t) hk
          rw [ih t (path ++ [nodeName t]) hwt]
          rw [ihf (fun g hg => hfo2 g (List.mem_cons_of_mem _ hg))]
      rw [hfold fo hfo]


/-- C9: after any sequence of `AddChild` operations the folder-name and
file-name lists are each in strictly ascending byte-lexicographic
(case-sensitive) order; the result is the same for any permutation of
the operations (so it does not depend on the Go map iteration order
driving the adds); and on well-formed loaded trees the traversal
`Tree.visit` emits each node first, then its child folders recursively
in list order, then its child files in list order, as the spec-shaped
traversal does. -/
theorem c9_addChild_sorted_deterministic_visit :
    (∀ ops : List (List Nat × Bool),
      (addChildren ops).childrenFolders.Pairwise (fun a b => goStringLt a b = true) ∧
      (addChildren ops).childrenFiles.Pairwise (fun a b => goStringLt a b = true)) ∧
    (∀ ops ops2 : List (List Nat × Bool), ops.Perm ops2 →
      addChildren ops = addChildren ops2) ∧
    (∀ (fuel : Nat) (n : TNode) (path : List (List Nat)), TreeWF n →
      visitGo fuel n path = specVisit fuel n path) :=
  ⟨addChildren_sorted, addChildren_perm, visitGo_eq_specVisit⟩

/-- C9 (witness): the characterization applied to the concrete
operation sequence `[(["a"], folder), (["b"], file)]`, its swap, and a
one-node loaded tree. -/
theorem c9_addChild_sorted_deterministic_visit_witness :
    ([([97], true), ([98], false)] : List (List Nat × Bool)).Perm
      [([98], false), ([97], true)] ∧
    TreeWF (TNode.node [] true [] [] [] true) ∧
    ((addChildren [([97], true), ([98], false)]).childrenFolders.Pairwise
        (fun a b => goStringLt a b = true) ∧
      (addChildren [([97], true), ([98], false)]).childrenFiles.Pairwise
        (fun a b => goStringLt a b = true)) ∧
    addChildren [([97], true), ([98], false)] = addChildren [([98], false), ([97], true)] ∧
    visitGo 1 (TNode.node [] true [] [] [] true) [] =
      specVisit 1 (TNode.node [] true [] [] [] true) [] := by
  have hp : ([([97], true), ([98], false)] : List (List Nat × Bool)).Perm
      [([98], false), ([97], true)] := List.Perm.swap ([98], false) ([97], true) []
  have hwf : TreeWF (TNode.node [] true [] [] [] true) :=
    TreeWF.mk [] true [] [] []
      (fun p hp => absurd hp (List.not_mem_nil p))
      (fun f hf => absurd hf (List.not_mem_nil f))
  exact ⟨hp, hwf, c9_addChild_sorted_deterministic_visit.1 [([97], true), ([98], false)],
    c9_addChild_sorted_deterministic_visit.2.1 _ _ hp,
    c9_addChild_sorted_deterministic_visit.2.2 1 _ [] hwf⟩
end Exfat
